import Mathlib

/-!
Formal model of the helium wallet core: the mnemonic entropy codec
(entropy_to_mnemonic / mnemonic_to_entropy with BIP39 and legacy mobile
seed types), the basic and sharded wallet state machines, and their
binary serialization, together with proofs of the behavioural
properties stated in the specification.
-/

set_option maxRecDepth 1000000

namespace HeliumWallet

/-! ## Bit-level utilities

The Rust source manipulates entropy with bitvec BitSlices in Msb0 order.
We model a bit slice as a List Bool (most significant bit first) and a
byte as a Nat below 256. -/

/-- The low w bits of a natural number, most significant first.  This is
the Msb0 view used by the source when it takes the trailing 11 bits of a
word index and when it views bytes as bits. -/
def natBitsBE (w n : Nat) : List Bool :=
  (List.range w).map (fun i => n.testBit (w - 1 - i))

/-- Interpret a bit slice (most significant first) as a natural number.
This models BitField load on an Msb0 slice of at most one element. -/
def bitsToNatBE (l : List Bool) : Nat :=
  l.foldl (fun a b => 2 * a + (if b then 1 else 0)) 0

/-- The Msb0 bit view of a byte string. -/
def bytesToBits (bs : List Nat) : List Bool :=
  (bs.map (natBitsBE 8)).flatten

def bitsToBytesAux : Nat → List Bool → List Nat
  | 0, _ => []
  | fuel+1, l =>
    if l.isEmpty then []
    else bitsToNatBE (l.take 8) :: bitsToBytesAux fuel (l.drop 8)

/-- Reassemble a bit slice into bytes, eight bits at a time, most
significant bit first (copy_from_bitslice into a byte array). -/
def bitsToBytes (l : List Bool) : List Nat := bitsToBytesAux l.length l

/-! ## SHA-256

The source calls the sha2 crate (an external collaborator: the spec's
cryptographic hash over byte sequences, used only for checksum
computation).  We give it its standard semantics, on bytes as Nats. -/

def w32 (n : Nat) : Nat := n % 4294967296

def rotr32 (n x : Nat) : Nat := w32 ((x >>> n) ||| (x <<< (32 - n)))

def shaCh (x y z : Nat) : Nat := (x &&& y) ^^^ ((x ^^^ 4294967295) &&& z)

def shaMaj (x y z : Nat) : Nat := (x &&& y) ^^^ (x &&& z) ^^^ (y &&& z)

def shaS0 (x : Nat) : Nat := rotr32 2 x ^^^ rotr32 13 x ^^^ rotr32 22 x

def shaS1 (x : Nat) : Nat := rotr32 6 x ^^^ rotr32 11 x ^^^ rotr32 25 x

def shas0 (x : Nat) : Nat := rotr32 7 x ^^^ rotr32 18 x ^^^ (x >>> 3)

def shas1 (x : Nat) : Nat := rotr32 17 x ^^^ rotr32 19 x ^^^ (x >>> 10)

def shaH0 : List Nat :=
  [1779033703, 3144134277, 1013904242, 2773480762,
   1359893119, 2600822924, 528734635, 1541459225]

def shaK : List Nat :=
  [
   1116352408, 1899447441, 3049323471, 3921009573, 961987163, 1508970993,
   2453635748, 2870763221, 3624381080, 310598401, 607225278, 1426881987,
   1925078388, 2162078206, 2614888103, 3248222580, 3835390401, 4022224774,
   264347078, 604807628, 770255983, 1249150122, 1555081692, 1996064986,
   2554220882, 2821834349, 2952996808, 3210313671, 3336571891, 3584528711,
   113926993, 338241895, 666307205, 773529912, 1294757372, 1396182291,
   1695183700, 1986661051, 2177026350, 2456956037, 2730485921, 2820302411,
   3259730800, 3345764771, 3516065817, 3600352804, 4094571909, 275423344,
   430227734, 506948616, 659060556, 883997877, 958139571, 1322822218,
   1537002063, 1747873779, 1955562222, 2024104815, 2227730452, 2361852424,
   2428436474, 2756734187, 3204031479, 3329325298]

def toWords32 : List Nat → List Nat
  | a :: b :: c :: d :: rest => (((a * 256 + b) * 256 + c) * 256 + d) :: toWords32 rest
  | _ => []

def word32Bytes (x : Nat) : List Nat :=
  [(x >>> 24) &&& 255, (x >>> 16) &&& 255, (x >>> 8) &&& 255, x &&& 255]

def u64BytesBE (x : Nat) : List Nat :=
  [(x >>> 56) &&& 255, (x >>> 48) &&& 255, (x >>> 40) &&& 255, (x >>> 32) &&& 255,
   (x >>> 24) &&& 255, (x >>> 16) &&& 255, (x >>> 8) &&& 255, x &&& 255]

def shaSchedule : Nat → List Nat → List Nat
  | 0, ws => ws
  | fuel+1, ws =>
    shaSchedule fuel (ws ++ [w32 (shas1 (ws.getD (ws.length - 2) 0) +
      ws.getD (ws.length - 7) 0 + shas0 (ws.getD (ws.length - 15) 0) +
      ws.getD (ws.length - 16) 0)])

def shaRound (st : List Nat) (k : Nat) (w : Nat) : List Nat :=
  match st with
  | [a, b, c, d, e, f, g, h] =>
    let t1 := w32 (h + shaS1 e + shaCh e f g + k + w)
    let t2 := w32 (shaS0 a + shaMaj a b c)
    [w32 (t1 + t2), a, b, c, w32 (d + t1), e, f, g]
  | _ => st

def shaCompress (h : List Nat) (block : List Nat) : List Nat :=
  let ws := shaSchedule 48 block
  let st := (shaK.zip ws).foldl (fun s kw => shaRound s kw.1 kw.2) h
  List.zipWith (fun x y => w32 (x + y)) h st

def shaBlocksAux : Nat → List Nat → List Nat → List Nat
  | 0, h, _ => h
  | fuel+1, h, ws =>
    if ws.isEmpty then h
    else shaBlocksAux fuel (shaCompress h (ws.take 16)) (ws.drop 16)

/-- SHA-256 of a byte string, as the 32-byte digest. -/
def sha256 (msg : List Nat) : List Nat :=
  let len := msg.length
  let padZeros := (64 - ((len + 9) % 64)) % 64
  let padded := msg ++ [128] ++ List.replicate padZeros 0 ++ u64BytesBE (8 * len)
  let ws := toWords32 padded
  ((shaBlocksAux ws.length shaH0 ws).map word32Bytes).flatten

/-- Modelled from the spec: the repository loads its word list from
src/mnemonic/wordlists/english.txt via include_str, and that data file is not
under src/.  The spec describes it as an immutable ordered list of 2048 words
(BIP39-compatible, constructed so that the first four letters identify each
word unambiguously).  This is that standard BIP39 English word list. -/
def WORDS_ENGLISH : List String := [
    "abandon", "ability", "able", "about", "above", "absent", "absorb", "abstract",
    "absurd", "abuse", "access", "accident", "account", "accuse", "achieve", "acid",
    "acoustic", "acquire", "across", "act", "action", "actor", "actress", "actual",
    "adapt", "add", "addict", "address", "adjust", "admit", "adult", "advance",
    "advice", "aerobic", "affair", "afford", "afraid", "again", "age", "agent",
    "agree", "ahead", "aim", "air", "airport", "aisle", "alarm", "album",
    "alcohol", "alert", "alien", "all", "alley", "allow", "almost", "alone",
    "alpha", "already", "also", "alter", "always", "amateur", "amazing", "among",
    "amount", "amused", "analyst", "anchor", "ancient", "anger", "angle", "angry",
    "animal", "ankle", "announce", "annual", "another", "answer", "antenna", "antique",
    "anxiety", "any", "apart", "apology", "appear", "apple", "approve", "april",
    "arch", "arctic", "area", "arena", "argue", "arm", "armed", "armor",
    "army", "around", "arrange", "arrest", "arrive", "arrow", "art", "artefact",
    "artist", "artwork", "ask", "aspect", "assault", "asset", "assist", "assume",
    "asthma", "athlete", "atom", "attack", "attend", "attitude", "attract", "auction",
    "audit", "august", "aunt", "author", "auto", "autumn", "average", "avocado",
    "avoid", "awake", "aware", "away", "awesome", "awful", "awkward", "axis",
    "baby", "bachelor", "bacon", "badge", "bag", "balance", "balcony", "ball",
    "bamboo", "banana", "banner", "bar", "barely", "bargain", "barrel", "base",
    "basic", "basket", "battle", "beach", "bean", "beauty", "because", "become",
    "beef", "before", "begin", "behave", "behind", "believe", "below", "belt",
    "bench", "benefit", "best", "betray", "better", "between", "beyond", "bicycle",
    "bid", "bike", "bind", "biology", "bird", "birth", "bitter", "black",
    "blade", "blame", "blanket", "blast", "bleak", "bless", "blind", "blood",
    "blossom", "blouse", "blue", "blur", "blush", "board", "boat", "body",
    "boil", "bomb", "bone", "bonus", "book", "boost", "border", "boring",
    "borrow", "boss", "bottom", "bounce", "box", "boy", "bracket", "brain",
    "brand", "brass", "brave", "bread", "breeze", "brick", "bridge", "brief",
    "bright", "bring", "brisk", "broccoli", "broken", "bronze", "broom", "brother",
    "brown", "brush", "bubble", "buddy", "budget", "buffalo", "build", "bulb",
    "bulk", "bullet", "bundle", "bunker", "burden", "burger", "burst", "bus",
    "business", "busy", "butter", "buyer", "buzz", "cabbage", "cabin", "cable",
    "cactus", "cage", "cake", "call", "calm", "camera", "camp", "can",
    "canal", "cancel", "candy", "cannon", "canoe", "canvas", "canyon", "capable",
    "capital", "captain", "car", "carbon", "card", "cargo", "carpet", "carry",
    "cart", "case", "cash", "casino", "castle", "casual", "cat", "catalog",
    "catch", "category", "cattle", "caught", "cause", "caution", "cave", "ceiling",
    "celery", "cement", "census", "century", "cereal", "certain", "chair", "chalk",
    "champion", "change", "chaos", "chapter", "charge", "chase", "chat", "cheap",
    "check", "cheese", "chef", "cherry", "chest", "chicken", "chief", "child",
    "chimney", "choice", "choose", "chronic", "chuckle", "chunk", "churn", "cigar",
    "cinnamon", "circle", "citizen", "city", "civil", "claim", "clap", "clarify",
    "claw", "clay", "clean", "clerk", "clever", "click", "client", "cliff",
    "climb", "clinic", "clip", "clock", "clog", "close", "cloth", "cloud",
    "clown", "club", "clump", "cluster", "clutch", "coach", "coast", "coconut",
    "code", "coffee", "coil", "coin", "collect", "color", "column", "combine",
    "come", "comfort", "comic", "common", "company", "concert", "conduct", "confirm",
    "congress", "connect", "consider", "control", "convince", "cook", "cool", "copper",
    "copy", "coral", "core", "corn", "correct", "cost", "cotton", "couch",
    "country", "couple", "course", "cousin", "cover", "coyote", "crack", "cradle",
    "craft", "cram", "crane", "crash", "crater", "crawl", "crazy", "cream",
    "credit", "creek", "crew", "cricket", "crime", "crisp", "critic", "crop",
    "cross", "crouch", "crowd", "crucial", "cruel", "cruise", "crumble", "crunch",
    "crush", "cry", "crystal", "cube", "culture", "cup", "cupboard", "curious",
    "current", "curtain", "curve", "cushion", "custom", "cute", "cycle", "dad",
    "damage", "damp", "dance", "danger", "daring", "dash", "daughter", "dawn",
    "day", "deal", "debate", "debris", "decade", "december", "decide", "decline",
    "decorate", "decrease", "deer", "defense", "define", "defy", "degree", "delay",
    "deliver", "demand", "demise", "denial", "dentist", "deny", "depart", "depend",
    "deposit", "depth", "deputy", "derive", "describe", "desert", "design", "desk",
    "despair", "destroy", "detail", "detect", "develop", "device", "devote", "diagram",
    "dial", "diamond", "diary", "dice", "diesel", "diet", "differ", "digital",
    "dignity", "dilemma", "dinner", "dinosaur", "direct", "dirt", "disagree", "discover",
    "disease", "dish", "dismiss", "disorder", "display", "distance", "divert", "divide",
    "divorce", "dizzy", "doctor", "document", "dog", "doll", "dolphin", "domain",
    "donate", "donkey", "donor", "door", "dose", "double", "dove", "draft",
    "dragon", "drama", "drastic", "draw", "dream", "dress", "drift", "drill",
    "drink", "drip", "drive", "drop", "drum", "dry", "duck", "dumb",
    "dune", "during", "dust", "dutch", "duty", "dwarf", "dynamic", "eager",
    "eagle", "early", "earn", "earth", "easily", "east", "easy", "echo",
    "ecology", "economy", "edge", "edit", "educate", "effort", "egg", "eight",
    "either", "elbow", "elder", "electric", "elegant", "element", "elephant", "elevator",
    "elite", "else", "embark", "embody", "embrace", "emerge", "emotion", "employ",
    "empower", "empty", "enable", "enact", "end", "endless", "endorse", "enemy",
    "energy", "enforce", "engage", "engine", "enhance", "enjoy", "enlist", "enough",
    "enrich", "enroll", "ensure", "enter", "entire", "entry", "envelope", "episode",
    "equal", "equip", "era", "erase", "erode", "erosion", "error", "erupt",
    "escape", "essay", "essence", "estate", "eternal", "ethics", "evidence", "evil",
    "evoke", "evolve", "exact", "example", "excess", "exchange", "excite", "exclude",
    "excuse", "execute", "exercise", "exhaust", "exhibit", "exile", "exist", "exit",
    "exotic", "expand", "expect", "expire", "explain", "expose", "express", "extend",
    "extra", "eye", "eyebrow", "fabric", "face", "faculty", "fade", "faint",
    "faith", "fall", "false", "fame", "family", "famous", "fan", "fancy",
    "fantasy", "farm", "fashion", "fat", "fatal", "father", "fatigue", "fault",
    "favorite", "feature", "february", "federal", "fee", "feed", "feel", "female",
    "fence", "festival", "fetch", "fever", "few", "fiber", "fiction", "field",
    "figure", "file", "film", "filter", "final", "find", "fine", "finger",
    "finish", "fire", "firm", "first", "fiscal", "fish", "fit", "fitness",
    "fix", "flag", "flame", "flash", "flat", "flavor", "flee", "flight",
    "flip", "float", "flock", "floor", "flower", "fluid", "flush", "fly",
    "foam", "focus", "fog", "foil", "fold", "follow", "food", "foot",
    "force", "forest", "forget", "fork", "fortune", "forum", "forward", "fossil",
    "foster", "found", "fox", "fragile", "frame", "frequent", "fresh", "friend",
    "fringe", "frog", "front", "frost", "frown", "frozen", "fruit", "fuel",
    "fun", "funny", "furnace", "fury", "future", "gadget", "gain", "galaxy",
    "gallery", "game", "gap", "garage", "garbage", "garden", "garlic", "garment",
    "gas", "gasp", "gate", "gather", "gauge", "gaze", "general", "genius",
    "genre", "gentle", "genuine", "gesture", "ghost", "giant", "gift", "giggle",
    "ginger", "giraffe", "girl", "give", "glad", "glance", "glare", "glass",
    "glide", "glimpse", "globe", "gloom", "glory", "glove", "glow", "glue",
    "goat", "goddess", "gold", "good", "goose", "gorilla", "gospel", "gossip",
    "govern", "gown", "grab", "grace", "grain", "grant", "grape", "grass",
    "gravity", "great", "green", "grid", "grief", "grit", "grocery", "group",
    "grow", "grunt", "guard", "guess", "guide", "guilt", "guitar", "gun",
    "gym", "habit", "hair", "half", "hammer", "hamster", "hand", "happy",
    "harbor", "hard", "harsh", "harvest", "hat", "have", "hawk", "hazard",
    "head", "health", "heart", "heavy", "hedgehog", "height", "hello", "helmet",
    "help", "hen", "hero", "hidden", "high", "hill", "hint", "hip",
    "hire", "history", "hobby", "hockey", "hold", "hole", "holiday", "hollow",
    "home", "honey", "hood", "hope", "horn", "horror", "horse", "hospital",
    "host", "hotel", "hour", "hover", "hub", "huge", "human", "humble",
    "humor", "hundred", "hungry", "hunt", "hurdle", "hurry", "hurt", "husband",
    "hybrid", "ice", "icon", "idea", "identify", "idle", "ignore", "ill",
    "illegal", "illness", "image", "imitate", "immense", "immune", "impact", "impose",
    "improve", "impulse", "inch", "include", "income", "increase", "index", "indicate",
    "indoor", "industry", "infant", "inflict", "inform", "inhale", "inherit", "initial",
    "inject", "injury", "inmate", "inner", "innocent", "input", "inquiry", "insane",
    "insect", "inside", "inspire", "install", "intact", "interest", "into", "invest",
    "invite", "involve", "iron", "island", "isolate", "issue", "item", "ivory",
    "jacket", "jaguar", "jar", "jazz", "jealous", "jeans", "jelly", "jewel",
    "job", "join", "joke", "journey", "joy", "judge", "juice", "jump",
    "jungle", "junior", "junk", "just", "kangaroo", "keen", "keep", "ketchup",
    "key", "kick", "kid", "kidney", "kind", "kingdom", "kiss", "kit",
    "kitchen", "kite", "kitten", "kiwi", "knee", "knife", "knock", "know",
    "lab", "label", "labor", "ladder", "lady", "lake", "lamp", "language",
    "laptop", "large", "later", "latin", "laugh", "laundry", "lava", "law",
    "lawn", "lawsuit", "layer", "lazy", "leader", "leaf", "learn", "leave",
    "lecture", "left", "leg", "legal", "legend", "leisure", "lemon", "lend",
    "length", "lens", "leopard", "lesson", "letter", "level", "liar", "liberty",
    "library", "license", "life", "lift", "light", "like", "limb", "limit",
    "link", "lion", "liquid", "list", "little", "live", "lizard", "load",
    "loan", "lobster", "local", "lock", "logic", "lonely", "long", "loop",
    "lottery", "loud", "lounge", "love", "loyal", "lucky", "luggage", "lumber",
    "lunar", "lunch", "luxury", "lyrics", "machine", "mad", "magic", "magnet",
    "maid", "mail", "main", "major", "make", "mammal", "man", "manage",
    "mandate", "mango", "mansion", "manual", "maple", "marble", "march", "margin",
    "marine", "market", "marriage", "mask", "mass", "master", "match", "material",
    "math", "matrix", "matter", "maximum", "maze", "meadow", "mean", "measure",
    "meat", "mechanic", "medal", "media", "melody", "melt", "member", "memory",
    "mention", "menu", "mercy", "merge", "merit", "merry", "mesh", "message",
    "metal", "method", "middle", "midnight", "milk", "million", "mimic", "mind",
    "minimum", "minor", "minute", "miracle", "mirror", "misery", "miss", "mistake",
    "mix", "mixed", "mixture", "mobile", "model", "modify", "mom", "moment",
    "monitor", "monkey", "monster", "month", "moon", "moral", "more", "morning",
    "mosquito", "mother", "motion", "motor", "mountain", "mouse", "move", "movie",
    "much", "muffin", "mule", "multiply", "muscle", "museum", "mushroom", "music",
    "must", "mutual", "myself", "mystery", "myth", "naive", "name", "napkin",
    "narrow", "nasty", "nation", "nature", "near", "neck", "need", "negative",
    "neglect", "neither", "nephew", "nerve", "nest", "net", "network", "neutral",
    "never", "news", "next", "nice", "night", "noble", "noise", "nominee",
    "noodle", "normal", "north", "nose", "notable", "note", "nothing", "notice",
    "novel", "now", "nuclear", "number", "nurse", "nut", "oak", "obey",
    "object", "oblige", "obscure", "observe", "obtain", "obvious", "occur", "ocean",
    "october", "odor", "off", "offer", "office", "often", "oil", "okay",
    "old", "olive", "olympic", "omit", "once", "one", "onion", "online",
    "only", "open", "opera", "opinion", "oppose", "option", "orange", "orbit",
    "orchard", "order", "ordinary", "organ", "orient", "original", "orphan", "ostrich",
    "other", "outdoor", "outer", "output", "outside", "oval", "oven", "over",
    "own", "owner", "oxygen", "oyster", "ozone", "pact", "paddle", "page",
    "pair", "palace", "palm", "panda", "panel", "panic", "panther", "paper",
    "parade", "parent", "park", "parrot", "party", "pass", "patch", "path",
    "patient", "patrol", "pattern", "pause", "pave", "payment", "peace", "peanut",
    "pear", "peasant", "pelican", "pen", "penalty", "pencil", "people", "pepper",
    "perfect", "permit", "person", "pet", "phone", "photo", "phrase", "physical",
    "piano", "picnic", "picture", "piece", "pig", "pigeon", "pill", "pilot",
    "pink", "pioneer", "pipe", "pistol", "pitch", "pizza", "place", "planet",
    "plastic", "plate", "play", "please", "pledge", "pluck", "plug", "plunge",
    "poem", "poet", "point", "polar", "pole", "police", "pond", "pony",
    "pool", "popular", "portion", "position", "possible", "post", "potato", "pottery",
    "poverty", "powder", "power", "practice", "praise", "predict", "prefer", "prepare",
    "present", "pretty", "prevent", "price", "pride", "primary", "print", "priority",
    "prison", "private", "prize", "problem", "process", "produce", "profit", "program",
    "project", "promote", "proof", "property", "prosper", "protect", "proud", "provide",
    "public", "pudding", "pull", "pulp", "pulse", "pumpkin", "punch", "pupil",
    "puppy", "purchase", "purity", "purpose", "purse", "push", "put", "puzzle",
    "pyramid", "quality", "quantum", "quarter", "question", "quick", "quit", "quiz",
    "quote", "rabbit", "raccoon", "race", "rack", "radar", "radio", "rail",
    "rain", "raise", "rally", "ramp", "ranch", "random", "range", "rapid",
    "rare", "rate", "rather", "raven", "raw", "razor", "ready", "real",
    "reason", "rebel", "rebuild", "recall", "receive", "recipe", "record", "recycle",
    "reduce", "reflect", "reform", "refuse", "region", "regret", "regular", "reject",
    "relax", "release", "relief", "rely", "remain", "remember", "remind", "remove",
    "render", "renew", "rent", "reopen", "repair", "repeat", "replace", "report",
    "require", "rescue", "resemble", "resist", "resource", "response", "result", "retire",
    "retreat", "return", "reunion", "reveal", "review", "reward", "rhythm", "rib",
    "ribbon", "rice", "rich", "ride", "ridge", "rifle", "right", "rigid",
    "ring", "riot", "ripple", "risk", "ritual", "rival", "river", "road",
    "roast", "robot", "robust", "rocket", "romance", "roof", "rookie", "room",
    "rose", "rotate", "rough", "round", "route", "royal", "rubber", "rude",
    "rug", "rule", "run", "runway", "rural", "sad", "saddle", "sadness",
    "safe", "sail", "salad", "salmon", "salon", "salt", "salute", "same",
    "sample", "sand", "satisfy", "satoshi", "sauce", "sausage", "save", "say",
    "scale", "scan", "scare", "scatter", "scene", "scheme", "school", "science",
    "scissors", "scorpion", "scout", "scrap", "screen", "script", "scrub", "sea",
    "search", "season", "seat", "second", "secret", "section", "security", "seed",
    "seek", "segment", "select", "sell", "seminar", "senior", "sense", "sentence",
    "series", "service", "session", "settle", "setup", "seven", "shadow", "shaft",
    "shallow", "share", "shed", "shell", "sheriff", "shield", "shift", "shine",
    "ship", "shiver", "shock", "shoe", "shoot", "shop", "short", "shoulder",
    "shove", "shrimp", "shrug", "shuffle", "shy", "sibling", "sick", "side",
    "siege", "sight", "sign", "silent", "silk", "silly", "silver", "similar",
    "simple", "since", "sing", "siren", "sister", "situate", "six", "size",
    "skate", "sketch", "ski", "skill", "skin", "skirt", "skull", "slab",
    "slam", "sleep", "slender", "slice", "slide", "slight", "slim", "slogan",
    "slot", "slow", "slush", "small", "smart", "smile", "smoke", "smooth",
    "snack", "snake", "snap", "sniff", "snow", "soap", "soccer", "social",
    "sock", "soda", "soft", "solar", "soldier", "solid", "solution", "solve",
    "someone", "song", "soon", "sorry", "sort", "soul", "sound", "soup",
    "source", "south", "space", "spare", "spatial", "spawn", "speak", "special",
    "speed", "spell", "spend", "sphere", "spice", "spider", "spike", "spin",
    "spirit", "split", "spoil", "sponsor", "spoon", "sport", "spot", "spray",
    "spread", "spring", "spy", "square", "squeeze", "squirrel", "stable", "stadium",
    "staff", "stage", "stairs", "stamp", "stand", "start", "state", "stay",
    "steak", "steel", "stem", "step", "stereo", "stick", "still", "sting",
    "stock", "stomach", "stone", "stool", "story", "stove", "strategy", "street",
    "strike", "strong", "struggle", "student", "stuff", "stumble", "style", "subject",
    "submit", "subway", "success", "such", "sudden", "suffer", "sugar", "suggest",
    "suit", "summer", "sun", "sunny", "sunset", "super", "supply", "supreme",
    "sure", "surface", "surge", "surprise", "surround", "survey", "suspect", "sustain",
    "swallow", "swamp", "swap", "swarm", "swear", "sweet", "swift", "swim",
    "swing", "switch", "sword", "symbol", "symptom", "syrup", "system", "table",
    "tackle", "tag", "tail", "talent", "talk", "tank", "tape", "target",
    "task", "taste", "tattoo", "taxi", "teach", "team", "tell", "ten",
    "tenant", "tennis", "tent", "term", "test", "text", "thank", "that",
    "theme", "then", "theory", "there", "they", "thing", "this", "thought",
    "three", "thrive", "throw", "thumb", "thunder", "ticket", "tide", "tiger",
    "tilt", "timber", "time", "tiny", "tip", "tired", "tissue", "title",
    "toast", "tobacco", "today", "toddler", "toe", "together", "toilet", "token",
    "tomato", "tomorrow", "tone", "tongue", "tonight", "tool", "tooth", "top",
    "topic", "topple", "torch", "tornado", "tortoise", "toss", "total", "tourist",
    "toward", "tower", "town", "toy", "track", "trade", "traffic", "tragic",
    "train", "transfer", "trap", "trash", "travel", "tray", "treat", "tree",
    "trend", "trial", "tribe", "trick", "trigger", "trim", "trip", "trophy",
    "trouble", "truck", "true", "truly", "trumpet", "trust", "truth", "try",
    "tube", "tuition", "tumble", "tuna", "tunnel", "turkey", "turn", "turtle",
    "twelve", "twenty", "twice", "twin", "twist", "two", "type", "typical",
    "ugly", "umbrella", "unable", "unaware", "uncle", "uncover", "under", "undo",
    "unfair", "unfold", "unhappy", "uniform", "unique", "unit", "universe", "unknown",
    "unlock", "until", "unusual", "unveil", "update", "upgrade", "uphold", "upon",
    "upper", "upset", "urban", "urge", "usage", "use", "used", "useful",
    "useless", "usual", "utility", "vacant", "vacuum", "vague", "valid", "valley",
    "valve", "van", "vanish", "vapor", "various", "vast", "vault", "vehicle",
    "velvet", "vendor", "venture", "venue", "verb", "verify", "version", "very",
    "vessel", "veteran", "viable", "vibrant", "vicious", "victory", "video", "view",
    "village", "vintage", "violin", "virtual", "virus", "visa", "visit", "visual",
    "vital", "vivid", "vocal", "voice", "void", "volcano", "volume", "vote",
    "voyage", "wage", "wagon", "wait", "walk", "wall", "walnut", "want",
    "warfare", "warm", "warrior", "wash", "wasp", "waste", "water", "wave",
    "way", "wealth", "weapon", "wear", "weasel", "weather", "web", "wedding",
    "weekend", "weird", "welcome", "west", "wet", "whale", "what", "wheat",
    "wheel", "when", "where", "whip", "whisper", "wide", "width", "wife",
    "wild", "will", "win", "window", "wine", "wing", "wink", "winner",
    "winter", "wire", "wisdom", "wise", "wish", "witness", "wolf", "woman",
    "wonder", "wood", "wool", "word", "work", "world", "worry", "worth",
    "wrap", "wreck", "wrestle", "wrist", "write", "wrong", "yard", "year",
    "yellow", "you", "young", "youth", "zebra", "zero", "zone", "zoo"]
/-- Character sequences of the word list entries (Rust &str values are
compared as their character sequences; every list word is ASCII). -/
def wordsEnglishChars : List (List Char) := WORDS_ENGLISH.map String.data

/-! ## Word lookup (Language::find_english_word) -/

/-- ASCII lowercasing of one character (Rust to_ascii_lowercase acts on
ASCII letters only and leaves every other character unchanged). -/
def toLowerChar (c : Char) : Char :=
  if 65 ≤ c.toNat ∧ c.toNat ≤ 90 then Char.ofNat (c.toNat + 32) else c

def toAsciiLowercase (w : List Char) : List Char := w.map toLowerChar

/-- The match condition from find_english_word: exact match, or a prefix
match when the user supplied at least MIN_CMP_LEN = 4 characters. -/
def wordMatches (u w : List Char) : Bool :=
  u == w || (decide (4 ≤ u.length) && decide (u.length ≤ w.length) && u == w.take u.length)

/-- Language::find_english_word: lowercase the user word, then return the
position of the first word-list entry it matches. -/
def find_english_word (user_word : List Char) : Option Nat :=
  let u := toAsciiLowercase user_word
  wordsEnglishChars.findIdx? (fun w => wordMatches u w)

/-! ## The mnemonic codec -/

inductive SeedType
  | bip39
  | mobile
deriving DecidableEq

/-- Error kinds of the core (the source reports them as anyhow messages;
we keep the distinguishing data). -/
inductive WError
  | invalidWordCount
  | unknownWord (w : List Char)
  | checksumFailure
  | invalidEntropyLength (bits : Nat)
  | stateMismatch
  | formatError
  | authenticationFailure
deriving DecidableEq

instance {ε α : Type} [DecidableEq ε] [DecidableEq α] : DecidableEq (Except ε α) := fun x y =>
  match x, y with
  | .ok a, .ok b =>
    if h : a = b then .isTrue (h ▸ rfl) else .isFalse (fun hc => h (Except.ok.inj hc))
  | .error a, .error b =>
    if h : a = b then .isTrue (h ▸ rfl) else .isFalse (fun hc => h (Except.error.inj hc))
  | .ok _, .error _ => .isFalse (fun hc => Except.noConfusion hc)
  | .error _, .ok _ => .isFalse (fun hc => Except.noConfusion hc)

/-- The try_fold of mnemonic_to_entropy: look every word up and append
the low 11 bits of each index, failing on the first unknown word. -/
def lookupWords : List (List Char) → Except WError (List Bool)
  | [] => .ok []
  | w :: ws =>
    match find_english_word w with
    | none => .error (.unknownWord w)
    | some idx =>
      match lookupWords ws with
      | .error e => .error e
      | .ok rest => .ok (natBitsBE 11 idx ++ rest)

def calc_checksum_128 (bytes : List Nat) : Nat :=
  ((sha256 bytes).headD 0 &&& 0b11110000) >>> 4

def calc_checksum_256 (bytes : List Nat) : Nat :=
  (sha256 bytes).headD 0

/-- Whether the word count passes the seed-type check at the top of
mnemonic_to_entropy. -/
def wordCountOk (n : Nat) (seed_type : SeedType) : Bool :=
  match seed_type with
  | .bip39 => n == 12 || n == 24
  | .mobile => n == 12

/-- mnemonic_to_entropy: convert a 12 or 24 word mnemonic to the 32 bytes
of entropy it carries (12-word entropy is duplicated into both halves). -/
def mnemonic_to_entropy (words : List (List Char)) (seed_type : SeedType) :
    Except WError (List Nat) :=
  if wordCountOk words.length seed_type = false then .error .invalidWordCount
  else
    match lookupWords words with
    | .error e => .error e
    | .ok word_bits =>
      let divider_index := word_bits.length - words.length / 3
      let entropy_bits := word_bits.take divider_index
      let checksum_bits := word_bits.drop divider_index
      let checksum_byte := bitsToNatBE checksum_bits
      if words.length == 12 then
        let entropy_half := bitsToBytes entropy_bits
        let entropy_bytes := entropy_half ++ entropy_half
        let valid_checksum :=
          match seed_type with
          | .bip39 => calc_checksum_128 entropy_half
          | .mobile => 0
        if checksum_byte ≠ valid_checksum then .error .checksumFailure
        else .ok entropy_bytes
      else
        let entropy_bytes := bitsToBytes entropy_bits
        let valid_checksum := calc_checksum_256 entropy_bytes
        if checksum_byte ≠ valid_checksum then .error .checksumFailure
        else .ok entropy_bytes

def bitsToWordIdxsAux : Nat → List Bool → List Nat
  | 0, _ => []
  | fuel+1, l =>
    if l.isEmpty then []
    else bitsToNatBE (l.take 11) :: bitsToWordIdxsAux fuel (l.drop 11)

/-- Split a bit sequence into 11-bit groups, each read as a word index.
In every reachable use the length is an exact multiple of 11. -/
def bitsToWordIdxs (l : List Bool) : List Nat := bitsToWordIdxsAux l.length l

/-- entropy_to_mnemonic: given entropy of the proper length, return a
mnemonic phrase. -/
def entropy_to_mnemonic (entropy : List Nat) (seed_type : SeedType) :
    Except WError (List (List Char)) :=
  let midpoint := entropy.length / 2
  let front := entropy.take midpoint
  let back := entropy.drop midpoint
  let working_entropy := if front == back then front else entropy
  let working_bits := working_entropy.length * 8
  if working_bits % 32 ≠ 0 ∨ working_bits < 128 ∨ working_bits > 256 then
    .error (.invalidEntropyLength working_bits)
  else
    let checksum :=
      match seed_type with
      | .bip39 => sha256 working_entropy
      | .mobile => List.replicate 32 0
    let word_bits := bytesToBits working_entropy ++ (bytesToBits checksum).take (working_bits / 32)
    .ok ((bitsToWordIdxs word_bits).map (fun idx => wordsEnglishChars.getD idx []))

/-! ## Base58 (the bs58 crate, used by the known-answer vectors) -/

def b58Alphabet : List Char :=
  ("123456789ABCDEFGHJKLMNPQRSTUVWXYZabcdefghijkmnopqrstuvwxyz").data

def natToBytesBEAux : Nat → Nat → List Nat
  | 0, _ => []
  | fuel+1, n => if n = 0 then [] else natToBytesBEAux fuel (n / 256) ++ [n % 256]

/-- Minimal big-endian byte string of a natural number (empty for 0).
The fuel argument of the helper strictly bounds the byte count. -/
def natToBytesBE (n : Nat) : List Nat := natToBytesBEAux 64 n

/-- Modelled from the spec: base58 decoding (bs58 crate, an external
collaborator used by the known-answer test vectors): digits in base 58
over the Bitcoin alphabet, with one leading zero byte per leading 1. -/
def bs58_decode (s : String) : Option (List Nat) :=
  let step := fun (acc : Option Nat) (c : Char) =>
    match acc, b58Alphabet.findIdx? (fun a => a == c) with
    | some n, some d => some (58 * n + d)
    | _, _ => none
  match s.data.foldl step (some 0) with
  | none => none
  | some n =>
    some (List.replicate (s.data.takeWhile (fun c => c == '1')).length 0 ++ natToBytesBE n)
/-! ## Wallets

The keypair module and the wallet crypto module (wallet/mod.rs with
encrypt_keypair / decrypt_keypair, and keypair.rs with PublicKey and its
ReadWrite instance) are not under src/; the spec treats the key
derivation and the authenticated cipher as external collaborators.  We
model byte buffers as lists of Nats and keep the collaborators as
parameters of the wallet operations. -/

/-- Modelled from the spec: a public key is a fixed-size block of
identity bytes plus a network/type tag; its serialized form is 33 bytes
(PubKeyBin is a 33-byte array). -/
def PUBLIC_KEY_LEN : Nat := 33

abbrev PublicKey := List Nat
abbrev IV := List Nat
abbrev Salt := List Nat
abbrev Tag := List Nat
abbrev AESKey := List Nat

/-- Modelled from the spec: a public/private key pair for one
cryptographic identity (keypair.rs is not under src/). -/
structure Keypair where
  public : PublicKey
  secret : List Nat
deriving DecidableEq

/-- Modelled from the spec: the collaborator interfaces consumed by the
wallet core - encrypt_keypair produces a fresh iv, the public key bytes,
the ciphertext and the authentication tag; decrypt_keypair inverts it
and fails closed on tag mismatch. -/
structure CryptoPrims where
  encrypt_keypair : Keypair → AESKey → Except WError (IV × List Nat × List Nat × Tag)
  decrypt_keypair : List Nat → AESKey → PublicKey → IV → Tag → Except WError Keypair

inductive BasicWallet
  | decrypted (keypair : Keypair) (iterations : Nat)
  | encrypted (public_key : PublicKey) (iv : IV) (salt : Salt) (iterations : Nat)
      (tag : Tag) (encrypted : List Nat)
deriving DecidableEq

inductive ShardedWallet
  | decrypted (keypair : Keypair) (iterations : Nat)
      (key_share_count : Nat) (recovery_threshold : Nat)
  | encrypted (public_key : PublicKey) (iv : IV) (salt : Salt) (iterations : Nat)
      (tag : Tag) (key_share_count : Nat) (recovery_threshold : Nat)
      (key_share : List Nat) (encrypted : List Nat)
deriving DecidableEq

def BasicWallet.isEncrypted : BasicWallet → Bool
  | .encrypted .. => true
  | .decrypted .. => false

def ShardedWallet.isEncrypted : ShardedWallet → Bool
  | .encrypted .. => true
  | .decrypted .. => false

/-- BasicWallet::encrypt. -/
def basicEncrypt (c : CryptoPrims) (w : BasicWallet) (password : AESKey) (salt : Salt) :
    Except WError BasicWallet :=
  match w with
  | .encrypted .. => .error .stateMismatch
  | .decrypted keypair iterations =>
    match c.encrypt_keypair keypair password with
    | .error e => .error e
    | .ok (iv, _pubkey_bin, enc, tag) =>
      .ok (.encrypted keypair.public iv salt iterations tag enc)

/-- BasicWallet::decrypt. -/
def basicDecrypt (c : CryptoPrims) (w : BasicWallet) (password : AESKey) :
    Except WError BasicWallet :=
  match w with
  | .decrypted .. => .error .stateMismatch
  | .encrypted public_key iv _salt iterations tag enc =>
    match c.decrypt_keypair enc password public_key iv tag with
    | .error e => .error e
    | .ok keypair => .ok (.decrypted keypair iterations)

/-- ShardedWallet::encrypt (a fresh encrypted record carries the
all-zero placeholder key share). -/
def shardedEncrypt (c : CryptoPrims) (w : ShardedWallet) (password : AESKey) (salt : Salt) :
    Except WError ShardedWallet :=
  match w with
  | .encrypted .. => .error .stateMismatch
  | .decrypted keypair iterations key_share_count recovery_threshold =>
    match c.encrypt_keypair keypair password with
    | .error e => .error e
    | .ok (iv, _pubkey_bin, enc, tag) =>
      .ok (.encrypted keypair.public iv salt iterations tag key_share_count
        recovery_threshold (List.replicate 33 0) enc)

/-- ShardedWallet::decrypt. -/
def shardedDecrypt (c : CryptoPrims) (w : ShardedWallet) (password : AESKey) :
    Except WError ShardedWallet :=
  match w with
  | .decrypted .. => .error .stateMismatch
  | .encrypted public_key iv _salt iterations tag key_share_count recovery_threshold _ks enc =>
    match c.decrypt_keypair enc password public_key iv tag with
    | .error e => .error e
    | .ok keypair => .ok (.decrypted keypair iterations key_share_count recovery_threshold)

/-- Outcome of a Rust call that can also abort the process: panicked
models a Rust panic (used for copy_from_slice on mismatched lengths). -/
inductive POutcome (α : Type)
  | ok (a : α)
  | err (e : WError)
  | panicked
deriving DecidableEq

/-- ShardedWallet::with_key_share.  The source copies the caller's slice
into a fresh 33-byte array with copy_from_slice, which panics unless the
slice is exactly 33 bytes long. -/
def with_key_share (w : ShardedWallet) (share : List Nat) : POutcome ShardedWallet :=
  match w with
  | .decrypted .. => .err .stateMismatch
  | .encrypted public_key iv salt iterations tag key_share_count recovery_threshold _ks enc =>
    if share.length = 33 then
      .ok (.encrypted public_key iv salt iterations tag key_share_count
        recovery_threshold share enc)
    else .panicked

/-! ## Sharded wallet serialization (impl ReadWrite for ShardedWallet) -/

/-- Little-endian four-byte encoding of a u32 (byteorder WriteBytesExt). -/
def u32LEBytes (n : Nat) : List Nat :=
  [n % 256, n / 256 % 256, n / 65536 % 256, n / 16777216 % 256]

def readExact (n : Nat) (s : List Nat) : Except WError (List Nat × List Nat) :=
  if n ≤ s.length then .ok (s.take n, s.drop n) else .error .formatError

def readU8 (s : List Nat) : Except WError (Nat × List Nat) :=
  match s with
  | [] => .error .formatError
  | b :: rest => .ok (b, rest)

def readU32LE (s : List Nat) : Except WError (Nat × List Nat) :=
  match s with
  | b0 :: b1 :: b2 :: b3 :: rest => .ok (b0 + 256 * b1 + 65536 * b2 + 16777216 * b3, rest)
  | _ => .error .formatError

/-- ShardedWallet::read over a byte stream. -/
def shardedRead (s : List Nat) : Except WError ShardedWallet :=
  match readU8 s with
  | .error e => .error e
  | .ok (key_share_count, s) =>
    match readU8 s with
    | .error e => .error e
    | .ok (recovery_threshold, s) =>
      match readExact 33 s with
      | .error e => .error e
      | .ok (key_share, s) =>
        match readExact PUBLIC_KEY_LEN s with
        | .error e => .error e
        | .ok (public_key, s) =>
          match readExact 12 s with
          | .error e => .error e
          | .ok (iv, s) =>
            match readExact 8 s with
            | .error e => .error e
            | .ok (salt, s) =>
              match readU32LE s with
              | .error e => .error e
              | .ok (iterations, s) =>
                match readExact 16 s with
                | .error e => .error e
                | .ok (tag, s) =>
                  .ok (.encrypted public_key iv salt iterations tag
                    key_share_count recovery_threshold key_share s)

/-- ShardedWallet::write: share count, recovery threshold and key share
first, then the public key, iv, salt, iterations (little endian) and tag,
with the ciphertext as the trailing bytes. -/
def shardedWrite (w : ShardedWallet) : Except WError (List Nat) :=
  match w with
  | .decrypted .. => .error .stateMismatch
  | .encrypted public_key iv salt iterations tag key_share_count recovery_threshold key_share enc =>
    .ok ([key_share_count] ++ [recovery_threshold] ++ key_share ++ public_key ++
      iv ++ salt ++ u32LEBytes iterations ++ tag ++ enc)

/-! ## Lemmas about the bit-level utilities -/

theorem bitsToNatBE_foldl (l : List Bool) (a : Nat) :
    l.foldl (fun a b => 2 * a + (if b then 1 else 0)) a =
      a * 2 ^ l.length + bitsToNatBE l := by
  induction l generalizing a with
  | nil => simp [bitsToNatBE]
  | cons x t ih =>
    simp only [List.foldl_cons, List.length_cons, bitsToNatBE]
    rw [ih, ih]
    ring

theorem bitsToNatBE_cons (x : Bool) (t : List Bool) :
    bitsToNatBE (x :: t) = (if x then 1 else 0) * 2 ^ t.length + bitsToNatBE t := by
  show t.foldl _ _ = _
  rw [bitsToNatBE_foldl]
  simp

theorem bitsToNatBE_lt (l : List Bool) : bitsToNatBE l < 2 ^ l.length := by
  induction l with
  | nil => simp [bitsToNatBE]
  | cons x t ih =>
    rw [bitsToNatBE_cons, List.length_cons, pow_succ]
    cases x <;> simp <;> omega

theorem natBitsBE_length (w n : Nat) : (natBitsBE w n).length = w := by
  simp [natBitsBE]

theorem natBitsBE_succ (w n : Nat) :
    natBitsBE (w + 1) n = n.testBit w :: natBitsBE w n := by
  simp only [natBitsBE, List.range_succ_eq_map, List.map_cons, List.map_map, Function.comp_def,
    List.cons.injEq]
  refine ⟨by congr 1, ?_⟩
  apply List.map_congr_left
  intro i hi
  rw [List.mem_range] at hi
  congr 1
  omega

theorem natBitsBE_eq_self (l : List Bool) :
    natBitsBE l.length (bitsToNatBE l) = l := by
  induction l with
  | nil => rfl
  | cons x t ih =>
    rw [List.length_cons, natBitsBE_succ, bitsToNatBE_cons]
    have hb := bitsToNatBE_lt t
    have hhead : Nat.testBit ((if x then 1 else 0) * 2 ^ t.length + bitsToNatBE t) t.length = x := by
      rw [Nat.mul_comm, Nat.testBit_mul_pow_two_add _ hb]
      cases x <;> simp
    have htail : natBitsBE t.length ((if x then 1 else 0) * 2 ^ t.length + bitsToNatBE t) =
        natBitsBE t.length (bitsToNatBE t) := by
      apply List.map_congr_left
      intro i hi
      rw [List.mem_range] at hi
      rw [Nat.mul_comm, Nat.testBit_mul_pow_two_add _ hb]
      have : t.length - 1 - i < t.length := by omega
      simp [this]
    rw [hhead, htail, ih]

theorem natBitsBE_of_length {l : List Bool} {w : Nat} (h : l.length = w) :
    natBitsBE w (bitsToNatBE l) = l := h ▸ natBitsBE_eq_self l

theorem bitsToNatBE_natBitsBE (w n : Nat) :
    bitsToNatBE (natBitsBE w n) = n % 2 ^ w := by
  induction w with
  | zero => simp [natBitsBE, bitsToNatBE, Nat.mod_one]
  | succ w ih =>
    rw [natBitsBE_succ, bitsToNatBE_cons, natBitsBE_length, ih, Nat.mod_pow_succ]
    have : (if n.testBit w then 1 else 0) = n / 2 ^ w % 2 := by
      rw [Nat.testBit_to_div_mod]
      rcases Nat.mod_two_eq_zero_or_one (n / 2 ^ w) with h | h <;> simp [h]
    rw [this]
    ring

theorem bitsToNatBE_natBitsBE_of_lt {w n : Nat} (h : n < 2 ^ w) :
    bitsToNatBE (natBitsBE w n) = n := by
  rw [bitsToNatBE_natBitsBE, Nat.mod_eq_of_lt h]

theorem bytesToBits_cons (b : Nat) (t : List Nat) :
    bytesToBits (b :: t) = natBitsBE 8 b ++ bytesToBits t := by
  simp [bytesToBits]

theorem bytesToBits_append (a b : List Nat) :
    bytesToBits (a ++ b) = bytesToBits a ++ bytesToBits b := by
  simp [bytesToBits]

theorem bytesToBits_length (bs : List Nat) : (bytesToBits bs).length = 8 * bs.length := by
  induction bs with
  | nil => rfl
  | cons b t ih =>
    rw [bytesToBits_cons, List.length_append, natBitsBE_length, ih, List.length_cons]
    ring

theorem bitsToBytesAux_congr : ∀ (f g : Nat) (l : List Bool),
    l.length ≤ f → l.length ≤ g → bitsToBytesAux f l = bitsToBytesAux g l := by
  intro f
  induction f with
  | zero =>
    intro g l hf _
    have : l = [] := List.length_eq_zero.mp (by omega)
    subst this
    cases g <;> simp [bitsToBytesAux]
  | succ f ih =>
    intro g l hf hg
    match g, l with
    | 0, l =>
      have : l = [] := List.length_eq_zero.mp (by omega)
      subst this
      simp [bitsToBytesAux]
    | g+1, [] => simp [bitsToBytesAux]
    | g+1, x :: t =>
      simp only [bitsToBytesAux, List.isEmpty_cons]
      have hd : ((x :: t).drop 8).length ≤ f := by
        rw [List.length_drop]
        simp only [List.length_cons] at hf ⊢
        omega
      have hd' : ((x :: t).drop 8).length ≤ g := by
        rw [List.length_drop]
        simp only [List.length_cons] at hg ⊢
        omega
      rw [ih g _ hd hd']

theorem bitsToBytes_cons8 {c : List Bool} (r : List Bool) (h : c.length = 8) :
    bitsToBytes (c ++ r) = bitsToNatBE c :: bitsToBytes r := by
  have hne : (c ++ r).isEmpty = false := by
    cases c with
    | nil => simp at h
    | cons a t => simp
  rw [bitsToBytes, List.length_append, h]
  show bitsToBytesAux (8 + r.length) (c ++ r) = _
  cases hfuel : 8 + r.length with
  | zero => omega
  | succ f =>
    simp only [bitsToBytesAux, hne, if_false, List.take_left' h, List.drop_left' h]
    rw [bitsToBytesAux_congr f r.length r (by omega) (le_refl _)]
    rfl

theorem bitsToBytes_nil : bitsToBytes [] = [] := rfl

theorem bitsToBytes_bytesToBits {bs : List Nat} (h : ∀ b ∈ bs, b < 256) :
    bitsToBytes (bytesToBits bs) = bs := by
  induction bs with
  | nil => rfl
  | cons b t ih =>
    rw [bytesToBits_cons, bitsToBytes_cons8 _ (natBitsBE_length 8 b),
      bitsToNatBE_natBitsBE_of_lt (h b (by simp)), ih (fun x hx => h x (by simp [hx]))]

theorem bitsToWordIdxsAux_congr : ∀ (f g : Nat) (l : List Bool),
    l.length ≤ f → l.length ≤ g → bitsToWordIdxsAux f l = bitsToWordIdxsAux g l := by
  intro f
  induction f with
  | zero =>
    intro g l hf _
    have : l = [] := List.length_eq_zero.mp (by omega)
    subst this
    cases g <;> simp [bitsToWordIdxsAux]
  | succ f ih =>
    intro g l hf hg
    match g, l with
    | 0, l =>
      have : l = [] := List.length_eq_zero.mp (by omega)
      subst this
      simp [bitsToWordIdxsAux]
    | g+1, [] => simp [bitsToWordIdxsAux]
    | g+1, x :: t =>
      simp only [bitsToWordIdxsAux, List.isEmpty_cons]
      have hd : ((x :: t).drop 11).length ≤ f := by
        rw [List.length_drop]
        simp only [List.length_cons] at hf ⊢
        omega
      have hd' : ((x :: t).drop 11).length ≤ g := by
        rw [List.length_drop]
        simp only [List.length_cons] at hg ⊢
        omega
      rw [ih g _ hd hd']

theorem bitsToWordIdxs_cons11 {c : List Bool} (r : List Bool) (h : c.length = 11) :
    bitsToWordIdxs (c ++ r) = bitsToNatBE c :: bitsToWordIdxs r := by
  have hne : (c ++ r).isEmpty = false := by
    cases c with
    | nil => simp at h
    | cons a t => simp
  rw [bitsToWordIdxs, List.length_append, h]
  show bitsToWordIdxsAux (11 + r.length) (c ++ r) = _
  cases hfuel : 11 + r.length with
  | zero => omega
  | succ f =>
    simp only [bitsToWordIdxsAux, hne, if_false, List.take_left' h, List.drop_left' h]
    rw [bitsToWordIdxsAux_congr f r.length r (by omega) (le_refl _)]
    rfl

theorem bitsToWordIdxs_nil : bitsToWordIdxs [] = [] := rfl

/-! ## The word list: order, lowercase form and lookup -/

/-- Strict lexicographic order on character sequences (byte order of the
ASCII words, as Rust compares &str). -/
def lexLtB : List Char → List Char → Bool
  | _, [] => false
  | [], _ :: _ => true
  | a :: as, b :: bs => decide (a.toNat < b.toNat) || (a == b && lexLtB as bs)

theorem lexLtB_irrefl : ∀ a : List Char, lexLtB a a = false := by
  intro a
  induction a with
  | nil => rfl
  | cons x t ih => simp [lexLtB, ih]

theorem lexLtB_trans : ∀ a b c : List Char,
    lexLtB a b = true → lexLtB b c = true → lexLtB a c = true := by
  intro a
  induction a with
  | nil =>
    intro b c hab hbc
    match b, c with
    | _, [] => simp [lexLtB] at hbc
    | _, _ :: _ => rfl
  | cons x as ih =>
    intro b c hab hbc
    match b, c with
    | [], _ => simp [lexLtB] at hab
    | _ :: _, [] => simp [lexLtB] at hbc
    | y :: bs, z :: cs =>
      simp only [lexLtB, Bool.or_eq_true, Bool.and_eq_true, decide_eq_true_eq,
        beq_iff_eq] at hab hbc ⊢
      rcases hab with hab | ⟨rfl, hab⟩
      · rcases hbc with hbc | ⟨rfl, hbc⟩
        · exact Or.inl (by omega)
        · exact Or.inl hab
      · rcases hbc with hbc | ⟨rfl, hbc⟩
        · exact Or.inl hbc
        · exact Or.inr ⟨rfl, ih bs cs hab hbc⟩

theorem lexLtB_take_not : ∀ (b : List Char) (k : Nat), lexLtB b (b.take k) = false := by
  intro b
  induction b with
  | nil => intro k; cases k <;> rfl
  | cons x t ih =>
    intro k
    match k with
    | 0 => rfl
    | k + 1 => simp [List.take_succ_cons, lexLtB, ih]

/-- One boolean pass checking that adjacent entries are related. -/
def chainB (f : α → α → Bool) : List α → Bool
  | [] => true
  | [_] => true
  | a :: b :: t => f a b && chainB f (b :: t)

theorem chainB_tail {f : α → α → Bool} {a : α} {t : List α}
    (h : chainB f (a :: t) = true) : chainB f t = true := by
  match t with
  | [] => rfl
  | b :: t => exact (Bool.and_eq_true .. ▸ h).2

theorem chainB_head {f : α → α → Bool}
    (trans : ∀ a b c, f a b = true → f b c = true → f a c = true) :
    ∀ {a : α} {t : List α}, chainB f (a :: t) = true → ∀ x ∈ t, f a x = true := by
  intro a t
  induction t generalizing a with
  | nil => intro _ x hx; cases hx
  | cons b t ih =>
    intro h x hx
    have hab : f a b = true := (Bool.and_eq_true .. ▸ h).1
    rcases hx with _ | hx
    · exact hab
    · exact trans a b x hab (ih (chainB_tail h) x (by assumption))

theorem chainB_drop {f : α → α → Bool} :
    ∀ (m : Nat) (l : List α), chainB f l = true → chainB f (l.drop m) = true := by
  intro m
  induction m with
  | zero => intro l h; exact h
  | succ m ih =>
    intro l h
    match l with
    | [] => rfl
    | a :: t => exact ih t (chainB_tail h)

theorem chainB_pairwise {f : α → α → Bool}
    (trans : ∀ a b c, f a b = true → f b c = true → f a c = true)
    {l : List α} (h : chainB f l = true) {i j : Nat} (hij : i < j) (hj : j < l.length) :
    f (l.get ⟨i, by omega⟩) (l.get ⟨j, hj⟩) = true := by
  have hi : i < l.length := by omega
  have hdrop : l.drop i = l.get ⟨i, hi⟩ :: l.drop (i + 1) :=
    List.drop_eq_getElem_cons hi
  have hchain : chainB f (l.get ⟨i, hi⟩ :: l.drop (i + 1)) = true := by
    rw [← hdrop]
    exact chainB_drop i l h
  have hmem : l.get ⟨j, hj⟩ ∈ l.drop (i + 1) := by
    have hj' : j - (i + 1) < (l.drop (i + 1)).length := by
      rw [List.length_drop]
      omega
    have : (l.drop (i + 1)).get ⟨j - (i + 1), hj'⟩ = l.get ⟨j, hj⟩ := by
      simp only [List.get_eq_getElem, List.getElem_drop]
      congr 1
      omega
    rw [← this]
    exact List.get_mem _ _ _
  exact chainB_head trans hchain _ hmem

/-- The word at a given index of the word list (out of range gives the
empty word; all uses are in range). -/
def wordAt (i : Nat) : List Char := wordsEnglishChars.getD i []

def isLowerAlpha (c : Char) : Bool := decide (97 ≤ c.toNat) && decide (c.toNat ≤ 122)

theorem wordsChars_length : wordsEnglishChars.length = 2048 := by rfl

theorem wordsSorted : chainB lexLtB wordsEnglishChars = true := by decide

theorem wordsSorted4 :
    chainB (fun a b => lexLtB (a.take 4) (b.take 4)) wordsEnglishChars = true := by decide

theorem wordsLower : wordsEnglishChars.all (fun w => w.all isLowerAlpha) = true := by decide

theorem toLowerChar_fix {c : Char} (h : isLowerAlpha c = true) : toLowerChar c = c := by
  simp only [isLowerAlpha, Bool.and_eq_true, decide_eq_true_eq] at h
  rw [toLowerChar, if_neg (by omega)]

theorem toAsciiLowercase_fix {w : List Char} (h : w.all isLowerAlpha = true) :
    toAsciiLowercase w = w := by
  rw [List.all_eq_true] at h
  rw [toAsciiLowercase]
  calc w.map toLowerChar = w.map id := List.map_congr_left (fun c hc => toLowerChar_fix (h c hc))
  _ = w := List.map_id w

theorem wordAt_eq_getElem {i : Nat} (hw : i < wordsEnglishChars.length) :
    wordAt i = wordsEnglishChars[i] :=
  List.getD_eq_getElem _ _ hw

theorem wordAt_lower {i : Nat} (hw : i < wordsEnglishChars.length) :
    toAsciiLowercase (wordAt i) = wordAt i := by
  apply toAsciiLowercase_fix
  exact List.all_eq_true.mp wordsLower (wordAt i) (by
    rw [wordAt_eq_getElem hw]
    exact List.getElem_mem hw)

theorem lexLtB_take4_trans : ∀ a b c : List Char,
    lexLtB (a.take 4) (b.take 4) = true → lexLtB (b.take 4) (c.take 4) = true →
    lexLtB (a.take 4) (c.take 4) = true :=
  fun _ _ _ hab hbc => lexLtB_trans _ _ _ hab hbc

/-- An entry smaller in the word order is matched neither exactly nor as
a prefix extension of a later entry. -/
theorem no_match_exact (wi wj : List Char) (hpair : lexLtB wj wi = true) :
    wordMatches wi wj = false := by
  cases hm : wordMatches wi wj
  · rfl
  exfalso
  simp only [wordMatches, Bool.or_eq_true, Bool.and_eq_true, decide_eq_true_eq,
    beq_iff_eq] at hm
  rcases hm with heq | ⟨⟨_, _⟩, heq⟩
  · subst heq
    rw [lexLtB_irrefl] at hpair
    exact Bool.false_ne_true hpair
  · rw [heq, lexLtB_take_not] at hpair
    exact Bool.false_ne_true hpair

/-- Four-character prefixes are strictly increasing along the list, so a
four-character truncation matches no earlier entry. -/
theorem no_match_take4 (wi wj : List Char)
    (hpair : lexLtB (wj.take 4) (wi.take 4) = true) :
    wordMatches (wi.take 4) wj = false := by
  cases hm : wordMatches (wi.take 4) wj
  · rfl
  exfalso
  simp only [wordMatches, Bool.or_eq_true, Bool.and_eq_true, decide_eq_true_eq,
    beq_iff_eq] at hm
  rcases hm with heq | ⟨⟨h4, _⟩, heq⟩
  · rw [← heq, List.take_take] at hpair
    simp only [Nat.min_self] at hpair
    rw [lexLtB_irrefl] at hpair
    exact Bool.false_ne_true hpair
  · have hl : ((wi.take 4).length) = 4 := by
      rw [List.length_take] at h4 ⊢
      omega
    rw [hl] at heq
    rw [← heq, lexLtB_irrefl] at hpair
    exact Bool.false_ne_true hpair

theorem find_at {i : Nat} (hi : i < 2048) : find_english_word (wordAt i) = some i := by
  have hw : i < wordsEnglishChars.length := by rw [wordsChars_length]; exact hi
  show wordsEnglishChars.findIdx? (fun w => wordMatches (toAsciiLowercase (wordAt i)) w) = some i
  rw [wordAt_lower hw]
  apply List.findIdx?_eq_some_iff_getElem.mpr
  refine ⟨hw, ?_, ?_⟩
  · show wordMatches (wordAt i) wordsEnglishChars[i] = true
    rw [← wordAt_eq_getElem hw]
    simp [wordMatches]
  · intro j hji
    have hjw : j < wordsEnglishChars.length := by omega
    have hpair0 := chainB_pairwise lexLtB_trans wordsSorted hji hw
    simp only [List.get_eq_getElem] at hpair0
    rw [← wordAt_eq_getElem hw] at hpair0
    intro hmatch
    rw [no_match_exact _ _ hpair0] at hmatch
    exact Bool.false_ne_true hmatch

theorem find_take4_at {i : Nat} (hi : i < 2048) :
    find_english_word ((wordAt i).take 4) = some i := by
  have hw : i < wordsEnglishChars.length := by rw [wordsChars_length]; exact hi
  show wordsEnglishChars.findIdx?
    (fun w => wordMatches (toAsciiLowercase ((wordAt i).take 4)) w) = some i
  have hlow : toAsciiLowercase ((wordAt i).take 4) = (wordAt i).take 4 := by
    rw [toAsciiLowercase, List.map_take]
    rw [show (wordAt i).map toLowerChar = toAsciiLowercase (wordAt i) from rfl]
    rw [wordAt_lower hw]
  rw [hlow]
  apply List.findIdx?_eq_some_iff_getElem.mpr
  refine ⟨hw, ?_, ?_⟩
  · show wordMatches ((wordAt i).take 4) wordsEnglishChars[i] = true
    rw [← wordAt_eq_getElem hw]
    by_cases hlen : (wordAt i).length ≤ 4
    · rw [List.take_of_length_le hlen]
      simp [wordMatches]
    · have h4 : ((wordAt i).take 4).length = 4 := by
        rw [List.length_take]
        omega
      have hge : 4 ≤ (wordAt i).length := by omega
      simp [wordMatches, h4, hge]
  · intro j hji
    have hjw : j < wordsEnglishChars.length := by omega
    have hpair0 := chainB_pairwise lexLtB_take4_trans wordsSorted4 hji hw
    simp only [List.get_eq_getElem] at hpair0
    rw [← wordAt_eq_getElem hw] at hpair0
    intro hmatch
    rw [no_match_take4 _ _ hpair0] at hmatch
    exact Bool.false_ne_true hmatch

/-! ## Lemmas about the codec -/

theorem sha256_bytes_lt (msg : List Nat) : ∀ b ∈ sha256 msg, b < 256 := by
  intro b hb
  rw [sha256] at hb
  simp only [List.mem_flatten, List.mem_map] at hb
  obtain ⟨l, ⟨w, _, rfl⟩, hbl⟩ := hb
  have hle : b ≤ 255 := by
    simp only [word32Bytes, List.mem_cons, List.not_mem_nil, or_false] at hbl
    rcases hbl with rfl | rfl | rfl | rfl <;> exact Nat.and_le_right
  omega

theorem bitsToNatBE_take4 {d : List Nat} (h : ∀ b ∈ d, b < 256) :
    bitsToNatBE ((bytesToBits d).take 4) = (d.headD 0 &&& 240) >>> 4 := by
  match d with
  | [] => rfl
  | b :: t =>
    rw [bytesToBits_cons]
    have h8 : (natBitsBE 8 b).length = 8 := natBitsBE_length 8 b
    have htake : ((natBitsBE 8 b ++ bytesToBits t).take 4) = (natBitsBE 8 b).take 4 := by
      rw [List.take_append_eq_append_take, h8]
      simp
    rw [htake]
    have hb : b < 256 := h b (by simp)
    have : ∀ x : Nat, x < 256 → bitsToNatBE ((natBitsBE 8 x).take 4) = (x &&& 240) >>> 4 := by
      decide
    rw [this b hb]
    rfl

theorem bitsToNatBE_take8 {d : List Nat} (h : ∀ b ∈ d, b < 256) :
    bitsToNatBE ((bytesToBits d).take 8) = d.headD 0 := by
  match d with
  | [] => rfl
  | b :: t =>
    rw [bytesToBits_cons]
    have h8 : (natBitsBE 8 b).length = 8 := natBitsBE_length 8 b
    have htake : ((natBitsBE 8 b ++ bytesToBits t).take 8) = natBitsBE 8 b := by
      rw [List.take_append_eq_append_take, h8]
      simp [List.take_of_length_le (le_of_eq h8)]
    rw [htake, bitsToNatBE_natBitsBE_of_lt (h b (by simp))]
    rfl

theorem lookupWords_append_bits (B : List Bool) (hdvd : 11 ∣ B.length) :
    lookupWords ((bitsToWordIdxs B).map wordAt) = Except.ok B := by
  by_cases hB : B = []
  · subst hB; rfl
  · have hpos : 0 < B.length := List.length_pos.mpr hB
    have hlen : 11 ≤ B.length := Nat.le_of_dvd hpos hdvd
    have htl : (B.take 11).length = 11 := by
      rw [List.length_take]
      omega
    have hstep : bitsToWordIdxs B = bitsToNatBE (B.take 11) :: bitsToWordIdxs (B.drop 11) := by
      have h := bitsToWordIdxs_cons11 (B.drop 11) htl
      rw [List.take_append_drop] at h
      exact h
    have hN : bitsToNatBE (B.take 11) < 2048 := by
      have h := bitsToNatBE_lt (B.take 11)
      rw [htl] at h
      norm_num at h
      exact h
    have hdvd' : 11 ∣ (B.drop 11).length := by
      rw [List.length_drop]
      omega
    have hrec := lookupWords_append_bits (B.drop 11) hdvd'
    rw [hstep, List.map_cons, lookupWords, find_at hN, hrec]
    show Except.ok (natBitsBE 11 (bitsToNatBE (B.take 11)) ++ B.drop 11) = Except.ok B
    rw [natBitsBE_of_length htl, List.take_append_drop]
termination_by B.length
decreasing_by
  rw [List.length_drop]
  omega

theorem bitsToWordIdxs_length (B : List Bool) (hdvd : 11 ∣ B.length) :
    (bitsToWordIdxs B).length = B.length / 11 := by
  by_cases hB : B = []
  · subst hB; rfl
  · have hpos : 0 < B.length := List.length_pos.mpr hB
    have hlen : 11 ≤ B.length := Nat.le_of_dvd hpos hdvd
    have htl : (B.take 11).length = 11 := by
      rw [List.length_take]
      omega
    have hstep : bitsToWordIdxs B = bitsToNatBE (B.take 11) :: bitsToWordIdxs (B.drop 11) := by
      have h := bitsToWordIdxs_cons11 (B.drop 11) htl
      rw [List.take_append_drop] at h
      exact h
    have hdvd' : 11 ∣ (B.drop 11).length := by
      rw [List.length_drop]
      omega
    have hrec := bitsToWordIdxs_length (B.drop 11) hdvd'
    rw [hstep, List.length_cons, hrec, List.length_drop]
    omega
termination_by B.length
decreasing_by
  rw [List.length_drop]
  omega

theorem lookupWords_ok_length : ∀ (ws : List (List Char)) (B : List Bool),
    lookupWords ws = .ok B → B.length = 11 * ws.length := by
  intro ws
  induction ws with
  | nil =>
    intro B h
    simp only [lookupWords, Except.ok.injEq] at h
    subst h
    rfl
  | cons w t ih =>
    intro B h
    rw [lookupWords] at h
    match hf : find_english_word w with
    | none => rw [hf] at h; exact absurd h (by simp)
    | some idx =>
      rw [hf] at h
      match hr : lookupWords t with
      | .error e => rw [hr] at h; exact absurd h (by simp)
      | .ok rest =>
        rw [hr] at h
        simp only [Except.ok.injEq] at h
        subst h
        rw [List.length_append, natBitsBE_length, ih rest hr, List.length_cons]
        ring

theorem lookupWords_error_of_unknown : ∀ (ws : List (List Char)),
    (∃ w ∈ ws, find_english_word w = none) →
    ∃ u, find_english_word u = none ∧ lookupWords ws = .error (.unknownWord u) := by
  intro ws
  induction ws with
  | nil =>
    intro h
    obtain ⟨w, hw, _⟩ := h
    cases hw
  | cons w t ih =>
    intro h
    match hf : find_english_word w with
    | none => exact ⟨w, hf, by rw [lookupWords, hf]⟩
    | some idx =>
      have ht : ∃ x ∈ t, find_english_word x = none := by
        obtain ⟨x, hx, hxn⟩ := h
        rcases hx with _ | hx
        · rw [hf] at hxn; cases hxn
        · exact ⟨x, by assumption, hxn⟩
      obtain ⟨u, hu, hlu⟩ := ih ht
      refine ⟨u, hu, ?_⟩
      rw [lookupWords, hf, hlu]

theorem find_congr_lower {a b : List Char}
    (h : toAsciiLowercase a = toAsciiLowercase b) :
    find_english_word a = find_english_word b := by
  show wordsEnglishChars.findIdx? (fun w => wordMatches (toAsciiLowercase a) w) = _
  rw [h]
  rfl

theorem lookupWords_congr_lower : ∀ (ws ws' : List (List Char)),
    ws.length = ws'.length →
    (∀ p ∈ ws.zip ws', toAsciiLowercase p.1 = toAsciiLowercase p.2) →
    (∀ w ∈ ws, find_english_word w ≠ none) →
    lookupWords ws = lookupWords ws' := by
  intro ws
  induction ws with
  | nil =>
    intro ws' hlen _ _
    match ws' with
    | [] => rfl
    | _ :: _ => simp at hlen
  | cons w t ih =>
    intro ws' hlen hzip hres
    match ws' with
    | [] => simp at hlen
    | w' :: t' =>
      have hw : toAsciiLowercase w = toAsciiLowercase w' := hzip (w, w') (by simp)
      have ht : lookupWords t = lookupWords t' := by
        apply ih t' (by simpa using hlen)
        · intro p hp
          exact hzip p (by simp [hp])
        · intro x hx
          exact hres x (by simp [hx])
      match hf : find_english_word w with
      | none => exact absurd hf (hres w (by simp))
      | some idx =>
        have hf' : find_english_word w' = some idx := by
          rw [← find_congr_lower hw, hf]
        rw [lookupWords, lookupWords, hf, hf', ht]

theorem mem_words_exists_idx {w : List Char} (h : w ∈ wordsEnglishChars) :
    ∃ i : Nat, i < 2048 ∧ w = wordAt i := by
  obtain ⟨i, hi, hw⟩ := List.mem_iff_getElem.mp h
  refine ⟨i, by rw [wordsChars_length] at hi; exact hi, ?_⟩
  rw [wordAt_eq_getElem hi, hw]

theorem lookupWords_map_take4 : ∀ (ws : List (List Char)),
    (∀ w ∈ ws, w ∈ wordsEnglishChars) →
    lookupWords (ws.map (fun w => w.take 4)) = lookupWords ws := by
  intro ws
  induction ws with
  | nil => intro _; rfl
  | cons w t ih =>
    intro h
    obtain ⟨i, hi, rfl⟩ := mem_words_exists_idx (h w (by simp))
    rw [List.map_cons, lookupWords, lookupWords, find_take4_at hi, find_at hi,
      ih (fun x hx => h x (by simp [hx]))]

/-! ## Digest shape and the encoded bit string -/

theorem shaRound_length (st : List Nat) (k w : Nat) :
    (shaRound st k w).length = st.length := by
  match st with
  | [] => rfl
  | [a] => rfl
  | [a, b] => rfl
  | [a, b, c] => rfl
  | [a, b, c, d] => rfl
  | [a, b, c, d, e] => rfl
  | [a, b, c, d, e, f] => rfl
  | [a, b, c, d, e, f, g] => rfl
  | [a, b, c, d, e, f, g, h] => rfl
  | a :: b :: c :: d :: e :: f :: g :: h :: i :: rest => rfl

theorem shaFold_length (l : List (Nat × Nat)) (h : List Nat) :
    (l.foldl (fun s kw => shaRound s kw.1 kw.2) h).length = h.length := by
  induction l generalizing h with
  | nil => rfl
  | cons x t ih => rw [List.foldl_cons, ih, shaRound_length]

theorem shaCompress_length (h block : List Nat) :
    (shaCompress h block).length = h.length := by
  rw [shaCompress, List.length_zipWith, shaFold_length]
  omega

theorem shaBlocksAux_length : ∀ (fuel : Nat) (h ws : List Nat),
    (shaBlocksAux fuel h ws).length = h.length := by
  intro fuel
  induction fuel with
  | zero => intro h ws; rfl
  | succ fuel ih =>
    intro h ws
    rw [shaBlocksAux]
    split
    · rfl
    · rw [ih, shaCompress_length]

theorem word32Bytes_flatten_length (H : List Nat) :
    ((H.map word32Bytes).flatten).length = 4 * H.length := by
  induction H with
  | nil => rfl
  | cons w t ih =>
    rw [List.map_cons, List.flatten_cons, List.length_append, ih, List.length_cons]
    rw [show (word32Bytes w).length = 4 from rfl]
    ring

theorem sha256_length (msg : List Nat) : (sha256 msg).length = 32 := by
  rw [sha256, word32Bytes_flatten_length, shaBlocksAux_length]
  rfl

/-- The checksum source entropy_to_mnemonic hashes (or zeroes, for the
mobile seed type). -/
def checksumSource (we : List Nat) (t : SeedType) : List Nat :=
  match t with
  | SeedType.bip39 => sha256 we
  | SeedType.mobile => List.replicate 32 0

/-- The bit string entropy_to_mnemonic packs into words: the working
entropy's bits followed by one checksum bit per 32 entropy bits. -/
def encodedBits (we : List Nat) (t : SeedType) : List Bool :=
  bytesToBits we ++ (bytesToBits (checksumSource we t)).take (we.length * 8 / 32)

theorem checksumSource_length (we : List Nat) (t : SeedType) :
    (checksumSource we t).length = 32 := by
  cases t
  · exact sha256_length we
  · simp [checksumSource]

theorem checksumSource_lt (we : List Nat) (t : SeedType) :
    ∀ b ∈ checksumSource we t, b < 256 := by
  cases t
  · exact sha256_bytes_lt we
  · intro b hb
    rw [List.eq_of_mem_replicate hb]
    omega

theorem encodedBits_length (we : List Nat) (t : SeedType) :
    (encodedBits we t).length = we.length * 8 + min (we.length * 8 / 32) 256 := by
  rw [encodedBits, List.length_append, List.length_take, bytesToBits_length,
    bytesToBits_length, checksumSource_length]
  omega

theorem encodedBits_take (we : List Nat) (t : SeedType) :
    (encodedBits we t).take (we.length * 8) = bytesToBits we := by
  rw [encodedBits, List.take_append_eq_append_take, bytesToBits_length,
    List.take_of_length_le (by rw [bytesToBits_length]; omega),
    show we.length * 8 - 8 * we.length = 0 by omega]
  simp

theorem encodedBits_drop (we : List Nat) (t : SeedType) :
    (encodedBits we t).drop (we.length * 8) =
      (bytesToBits (checksumSource we t)).take (we.length * 8 / 32) := by
  rw [encodedBits]
  exact List.drop_left' (by rw [bytesToBits_length]; ring)

/-- Decoding the word sequence produced from valid working entropy
recovers the entropy: duplicated into both halves for 12-word phrases,
verbatim for 24-word phrases. -/
theorem decode_encodedBits (we : List Nat) (t : SeedType)
    (hb : ∀ b ∈ we, b < 256)
    (hcase : we.length = 16 ∨ (we.length = 32 ∧ t = SeedType.bip39)) :
    mnemonic_to_entropy ((bitsToWordIdxs (encodedBits we t)).map wordAt) t =
      .ok (if we.length = 16 then we ++ we else we) := by
  rcases hcase with h16 | ⟨h32, ht⟩
  · have hBlen : (encodedBits we t).length = 132 := by
      rw [encodedBits_length, h16]
      decide
    have hdvd : (11 : Nat) ∣ (encodedBits we t).length := by
      rw [hBlen]
      decide
    have hwords : ((bitsToWordIdxs (encodedBits we t)).map wordAt).length = 12 := by
      rw [List.length_map, bitsToWordIdxs_length _ hdvd, hBlen]
    have hcnt : wordCountOk 12 t = true := by cases t <;> rfl
    have hlk := lookupWords_append_bits _ hdvd
    have htake : (encodedBits we t).take 128 = bytesToBits we := by
      have h := encodedBits_take we t
      rw [h16] at h
      norm_num at h
      exact h
    have hdrop : (encodedBits we t).drop 128 =
        (bytesToBits (checksumSource we t)).take 4 := by
      have h := encodedBits_drop we t
      rw [h16] at h
      norm_num at h
      exact h
    have hhalf : bitsToBytes (bytesToBits we) = we := bitsToBytes_bytesToBits hb
    cases t
    · have hcsb : bitsToNatBE ((bytesToBits (checksumSource we SeedType.bip39)).take 4) =
          calc_checksum_128 we := bitsToNatBE_take4 (sha256_bytes_lt we)
      rw [mnemonic_to_entropy, hwords, hcnt]
      simp only [Bool.true_eq_false, if_false, hlk, hBlen]
      norm_num
      rw [htake, hdrop, hhalf, hcsb]
      simp [h16]
    · have hcsb : bitsToNatBE ((bytesToBits (checksumSource we SeedType.mobile)).take 4) =
          0 := by
        rw [show checksumSource we SeedType.mobile = List.replicate 32 0 from rfl]
        decide
      rw [mnemonic_to_entropy, hwords, hcnt]
      simp only [Bool.true_eq_false, if_false, hlk, hBlen]
      norm_num
      rw [htake, hdrop, hhalf, hcsb]
      simp [h16]
  · subst ht
    have hBlen : (encodedBits we SeedType.bip39).length = 264 := by
      rw [encodedBits_length, h32]
      decide
    have hdvd : (11 : Nat) ∣ (encodedBits we SeedType.bip39).length := by
      rw [hBlen]
      decide
    have hwords : ((bitsToWordIdxs (encodedBits we SeedType.bip39)).map wordAt).length = 24 := by
      rw [List.length_map, bitsToWordIdxs_length _ hdvd, hBlen]
    have hlk := lookupWords_append_bits _ hdvd
    have htake : (encodedBits we SeedType.bip39).take 256 = bytesToBits we := by
      have h := encodedBits_take we SeedType.bip39
      rw [h32] at h
      norm_num at h
      exact h
    have hdrop : (encodedBits we SeedType.bip39).drop 256 =
        (bytesToBits (sha256 we)).take 8 := by
      have h := encodedBits_drop we SeedType.bip39
      rw [h32] at h
      norm_num at h
      exact h
    have hent : bitsToBytes (bytesToBits we) = we := bitsToBytes_bytesToBits hb
    have hcsb : bitsToNatBE ((bytesToBits (sha256 we)).take 8) = calc_checksum_256 we :=
      bitsToNatBE_take8 (sha256_bytes_lt we)
    rw [mnemonic_to_entropy, hwords]
    simp only [wordCountOk, Bool.true_eq_false, if_false, hlk, hBlen]
    norm_num
    rw [htake, hdrop, hent, hcsb]
    simp [h32]

/-- The working entropy entropy_to_mnemonic derives from its input: the
first half whenever the input is two identical concatenated halves,
otherwise the whole input. -/
def workingEntropy (entropy : List Nat) : List Nat :=
  let midpoint := entropy.length / 2
  let front := entropy.take midpoint
  let back := entropy.drop midpoint
  if front == back then front else entropy

theorem entropy_to_mnemonic_ok (e : List Nat) (t : SeedType)
    (h32 : ((workingEntropy e).length * 8) % 32 = 0)
    (hlo : 128 ≤ (workingEntropy e).length * 8)
    (hhi : (workingEntropy e).length * 8 ≤ 256) :
    entropy_to_mnemonic e t =
      .ok ((bitsToWordIdxs (encodedBits (workingEntropy e) t)).map wordAt) := by
  rw [workingEntropy] at h32 hlo hhi
  simp only [entropy_to_mnemonic]
  rw [if_neg (by omega)]
  rw [encodedBits, checksumSource.eq_def, workingEntropy]
  rfl

theorem entropy_to_mnemonic_err (e : List Nat) (t : SeedType)
    (hbad : ¬(((workingEntropy e).length * 8) % 32 = 0 ∧
      128 ≤ (workingEntropy e).length * 8 ∧ (workingEntropy e).length * 8 ≤ 256)) :
    entropy_to_mnemonic e t =
      .error (.invalidEntropyLength ((workingEntropy e).length * 8)) := by
  rw [workingEntropy] at hbad
  simp only [entropy_to_mnemonic]
  rw [if_pos (by omega), workingEntropy]

/-! ## Known-answer vectors and claim-level helper facts -/

def catchWords : List (List Char) :=
  [("catch").data, ("poet").data, ("clog").data, ("intact").data, ("scare").data,
   ("jacket").data, ("throw").data, ("palm").data, ("illegal").data, ("buyer").data,
   ("allow").data, ("figure").data]

def ritualWords : List (List Char) :=
  [("ritual").data, ("ice").data, ("harbor").data, ("gas").data, ("modify").data,
   ("seed").data, ("control").data, ("solve").data, ("burden").data, ("people").data,
   ("stay").data, ("million").data]

/-- 128-bit entropy behind the mobile known-answer vector. -/
def catchEntropyHalf : List Nat :=
  [36, 20, 228, 174, 58, 204, 4, 238, 56, 84, 250, 113, 3, 236, 26, 171]

/-- 128-bit entropy behind the standard 12-word known-answer vector. -/
def ritualEntropyHalf : List Nat :=
  [186, 142, 5, 164, 48, 8, 235, 133, 203, 222, 119, 30, 148, 91, 83, 198]

/-- 256-bit entropy of the standard 24-word test vector. -/
def entropy24 : List Nat :=
  [162, 90, 47, 116, 21, 81, 200, 223, 150, 220, 162, 40, 56, 148, 37, 71, 126, 51,
   208, 185, 77, 11, 153, 8, 71, 56, 38, 57, 82, 199, 102, 120]

theorem shift4_of_lt : ∀ x : Nat, x < 256 → (x &&& 240) >>> 4 = x >>> 4 := by decide

theorem sha256_headD_lt (msg : List Nat) : (sha256 msg).headD 0 < 256 := by
  match h : sha256 msg with
  | [] => decide
  | b :: t =>
    have : b ∈ sha256 msg := by rw [h]; simp
    exact sha256_bytes_lt msg b this

theorem except_bind_ok {α β : Type} (a : α) (f : α → Except WError β) :
    (Except.ok a).bind f = f a := rfl

/-- C1 (counterexample): the mnemonic round-trip fails as stated: for the
128-bit entropy of sixteen zero bytes (whose two 8-byte halves coincide),
entropy_to_mnemonic already fails with InvalidEntropyLength 64, so
mnemonic_to_entropy (entropy_to_mnemonic e t) t does not return the
duplicated entropy. -/
theorem claim_C1_counterexample :
    (entropy_to_mnemonic (List.replicate 16 0) SeedType.bip39).bind
        (fun ws => mnemonic_to_entropy ws SeedType.bip39) =
      Except.error (WError.invalidEntropyLength 64) ∧
    (entropy_to_mnemonic (List.replicate 16 0) SeedType.bip39).bind
        (fun ws => mnemonic_to_entropy ws SeedType.bip39) ≠
      Except.ok (List.replicate 16 (0 : Nat) ++ List.replicate 16 0) := by
  constructor
  · decide
  · decide

/-- C1 (amended): the mnemonic round-trip holds on the domain the code
accepts: 128-bit entropy whose two 8-byte halves differ round-trips to
its duplication under either seed type; 256-bit entropy with two equal
halves round-trips to itself under either seed type; 256-bit entropy
with differing halves round-trips to itself under the standard seed
type (under the mobile seed type its 24 words cannot be decoded). -/
theorem claim_C1_roundtrip (e : List Nat) (t : SeedType) (hb : ∀ b ∈ e, b < 256) :
    (e.length = 16 → e.take 8 ≠ e.drop 8 →
      (entropy_to_mnemonic e t).bind (fun ws => mnemonic_to_entropy ws t) =
        Except.ok (e ++ e)) ∧
    (e.length = 32 → e.take 16 = e.drop 16 →
      (entropy_to_mnemonic e t).bind (fun ws => mnemonic_to_entropy ws t) =
        Except.ok e) ∧
    (e.length = 32 → e.take 16 ≠ e.drop 16 → t = SeedType.bip39 →
      (entropy_to_mnemonic e t).bind (fun ws => mnemonic_to_entropy ws t) =
        Except.ok e) := by
  refine ⟨?_, ?_, ?_⟩
  · intro h16 hne
    have hbeq : (e.take 8 == e.drop 8) = false := beq_eq_false_iff_ne.mpr hne
    have hwe : workingEntropy e = e := by
      rw [workingEntropy]
      simp [h16, hbeq]
    have hwlen : (workingEntropy e).length = 16 := by rw [hwe, h16]
    have hcond : ((workingEntropy e).length * 8) % 32 = 0 ∧
        128 ≤ (workingEntropy e).length * 8 ∧ (workingEntropy e).length * 8 ≤ 256 := by
      rw [hwlen]
      omega
    have henc := entropy_to_mnemonic_ok e t hcond.1 hcond.2.1 hcond.2.2
    rw [henc, except_bind_ok]
    have hdec := decode_encodedBits (workingEntropy e) t (by rw [hwe]; exact hb)
      (Or.inl (by rw [hwe, h16]))
    rw [hdec, hwe, h16]
    simp
  · intro h32 heq
    have hbeq : (e.take 16 == e.drop 16) = true := beq_iff_eq.mpr heq
    have hwe : workingEntropy e = e.take 16 := by
      rw [workingEntropy]
      simp [h32, hbeq]
    have hwlen : (workingEntropy e).length = 16 := by
      rw [hwe, List.length_take, h32]
      omega
    have hcond : ((workingEntropy e).length * 8) % 32 = 0 ∧
        128 ≤ (workingEntropy e).length * 8 ∧ (workingEntropy e).length * 8 ≤ 256 := by
      rw [hwlen]
      omega
    have henc := entropy_to_mnemonic_ok e t hcond.1 hcond.2.1 hcond.2.2
    rw [henc, except_bind_ok]
    have hwb : ∀ b ∈ workingEntropy e, b < 256 := by
      intro b hbm
      rw [hwe] at hbm
      exact hb b (List.take_subset _ _ hbm)
    have hdec := decode_encodedBits (workingEntropy e) t hwb (Or.inl hwlen)
    rw [hdec]
    rw [if_pos hwlen, hwe]
    rw [show e.take 16 ++ e.take 16 = e.take 16 ++ e.drop 16 by rw [heq]]
    rw [List.take_append_drop]
  · intro h32 hne ht
    subst ht
    have hbeq : (e.take 16 == e.drop 16) = false := beq_eq_false_iff_ne.mpr hne
    have hwe : workingEntropy e = e := by
      rw [workingEntropy]
      simp [h32, hbeq]
    have hwlen : (workingEntropy e).length = 32 := by rw [hwe, h32]
    have hcond : ((workingEntropy e).length * 8) % 32 = 0 ∧
        128 ≤ (workingEntropy e).length * 8 ∧ (workingEntropy e).length * 8 ≤ 256 := by
      rw [hwlen]
      omega
    have henc := entropy_to_mnemonic_ok e SeedType.bip39 hcond.1 hcond.2.1 hcond.2.2
    rw [henc, except_bind_ok]
    have hdec := decode_encodedBits (workingEntropy e) SeedType.bip39
      (by rw [hwe]; exact hb) (Or.inr ⟨hwlen, rfl⟩)
    rw [hdec, hwe]
    rw [if_neg (by omega)]

/-- C1 (witness): the amended round-trip evaluated on the three concrete
entropies of the repository's known-answer tests. -/
theorem claim_C1_roundtrip_witness :
    (entropy_to_mnemonic catchEntropyHalf SeedType.mobile).bind
        (fun ws => mnemonic_to_entropy ws SeedType.mobile) =
      Except.ok (catchEntropyHalf ++ catchEntropyHalf) ∧
    (entropy_to_mnemonic (ritualEntropyHalf ++ ritualEntropyHalf) SeedType.bip39).bind
        (fun ws => mnemonic_to_entropy ws SeedType.bip39) =
      Except.ok (ritualEntropyHalf ++ ritualEntropyHalf) ∧
    (entropy_to_mnemonic entropy24 SeedType.bip39).bind
        (fun ws => mnemonic_to_entropy ws SeedType.bip39) =
      Except.ok entropy24 := by
  refine ⟨?_, ?_, ?_⟩
  · exact (claim_C1_roundtrip catchEntropyHalf SeedType.mobile (by decide)).1
      (by decide) (by decide)
  · exact (claim_C1_roundtrip (ritualEntropyHalf ++ ritualEntropyHalf) SeedType.bip39
      (by decide)).2.1 (by decide) (by decide)
  · exact (claim_C1_roundtrip entropy24 SeedType.bip39 (by decide)).2.2
      (by decide) (by decide) rfl

/-- C2: entropy_to_mnemonic succeeds exactly when the effective entropy
width (of the first half when the input is two identical concatenated
halves, of the whole input otherwise) is a multiple of 32 bits between
128 and 256 bits; any other width fails with InvalidEntropyLength
carrying that width. -/
theorem claim_C2_entropy_length (e : List Nat) (t : SeedType) :
    ((((workingEntropy e).length * 8) % 32 = 0 ∧ 128 ≤ (workingEntropy e).length * 8 ∧
        (workingEntropy e).length * 8 ≤ 256) →
      ∃ ws, entropy_to_mnemonic e t = Except.ok ws) ∧
    (¬(((workingEntropy e).length * 8) % 32 = 0 ∧ 128 ≤ (workingEntropy e).length * 8 ∧
        (workingEntropy e).length * 8 ≤ 256) →
      entropy_to_mnemonic e t =
        Except.error (WError.invalidEntropyLength ((workingEntropy e).length * 8))) := by
  constructor
  · intro h
    exact ⟨_, entropy_to_mnemonic_ok e t h.1 h.2.1 h.2.2⟩
  · intro h
    exact entropy_to_mnemonic_err e t h

/-- C2 (witness): a 16-byte input with distinct halves encodes, and a
10-byte input fails with InvalidEntropyLength 80. -/
theorem claim_C2_entropy_length_witness :
    (∃ ws, entropy_to_mnemonic ritualEntropyHalf SeedType.bip39 = Except.ok ws) ∧
    entropy_to_mnemonic [1, 2, 3, 4, 5, 6, 7, 8, 9, 10] SeedType.mobile =
      Except.error (WError.invalidEntropyLength 80) := by
  constructor
  · exact (claim_C2_entropy_length ritualEntropyHalf SeedType.bip39).1 (by decide)
  · have h := (claim_C2_entropy_length [1, 2, 3, 4, 5, 6, 7, 8, 9, 10] SeedType.mobile).2
      (by decide)
    rw [show (workingEntropy [1, 2, 3, 4, 5, 6, 7, 8, 9, 10]).length * 8 = 80 from by decide] at h
    exact h

/-- C3: the word-count check comes first: whatever the words are, a
count other than 12 or 24 under the standard seed type, or other than 12
under the mobile seed type, fails with InvalidWordCount (no word is ever
looked up, since the error is reached for arbitrary word contents). -/
theorem claim_C3_word_count (ws : List (List Char)) (t : SeedType) :
    (t = SeedType.bip39 → ws.length ≠ 12 → ws.length ≠ 24 →
      mnemonic_to_entropy ws t = Except.error WError.invalidWordCount) ∧
    (t = SeedType.mobile → ws.length ≠ 12 →
      mnemonic_to_entropy ws t = Except.error WError.invalidWordCount) := by
  constructor
  · intro ht h12 h24
    subst ht
    have hcnt : wordCountOk ws.length SeedType.bip39 = false := by
      simp [wordCountOk, h12, h24]
    rw [mnemonic_to_entropy, if_pos hcnt]
  · intro ht h12
    subst ht
    have hcnt : wordCountOk ws.length SeedType.mobile = false := by
      simp [wordCountOk, h12]
    rw [mnemonic_to_entropy, if_pos hcnt]

/-- C3 (witness): a 13-word list of unknown words fails with
InvalidWordCount under both seed types. -/
theorem claim_C3_word_count_witness :
    mnemonic_to_entropy (List.replicate 13 (("nonsense").data)) SeedType.bip39 =
      Except.error WError.invalidWordCount ∧
    mnemonic_to_entropy (List.replicate 13 (("nonsense").data)) SeedType.mobile =
      Except.error WError.invalidWordCount := by
  constructor
  · exact (claim_C3_word_count (List.replicate 13 (("nonsense").data)) SeedType.bip39).1
      rfl (by decide) (by decide)
  · exact (claim_C3_word_count (List.replicate 13 (("nonsense").data)) SeedType.mobile).2
      rfl (by decide)


theorem ite_ne_flip {α : Type} (a b : Nat) (x y : α) :
    (if a ≠ b then y else x) = (if a = b then x else y) := by
  by_cases h : a = b
  · rw [if_pos h, if_neg (fun hne => hne h)]
  · rw [if_neg h, if_pos h]

/-- Modelled from the spec: the expected checksum value, by seed type
and word count - the leading 4 bits of SHA-256 of the entropy for
standard 12-word phrases, the leading 8 bits for standard 24-word
phrases, always zero for the mobile seed type. -/
def specChecksum (t : SeedType) (wordCount : Nat) (entropy : List Nat) : Nat :=
  match t with
  | SeedType.mobile => 0
  | SeedType.bip39 =>
    if wordCount = 12 then (sha256 entropy).headD 0 >>> 4 else (sha256 entropy).headD 0

/-- C4: checksum verification of mnemonic_to_entropy, for any word list
whose count passes and whose words all resolve to the bit string B: the
expected checksum is the leading 4 bits of SHA-256 of the 128-bit
entropy for 12-word standard phrases, the leading 8 bits of SHA-256 of
the 256-bit entropy for 24-word standard phrases, and zero for mobile
phrases; on mismatch the call fails with ChecksumFailure, otherwise it
returns the entropy (duplicated for 12-word phrases). -/
theorem claim_C4_checksum (ws : List (List Char)) (t : SeedType) (B : List Bool)
    (hlk : lookupWords ws = Except.ok B)
    (hcnt : wordCountOk ws.length t = true) :
    mnemonic_to_entropy ws t =
      (if bitsToNatBE (B.drop (B.length - ws.length / 3)) =
          specChecksum t ws.length (bitsToBytes (B.take (B.length - ws.length / 3)))
      then Except.ok (if ws.length = 12
          then bitsToBytes (B.take (B.length - ws.length / 3)) ++
            bitsToBytes (B.take (B.length - ws.length / 3))
          else bitsToBytes (B.take (B.length - ws.length / 3)))
      else Except.error WError.checksumFailure) := by
  rw [mnemonic_to_entropy, if_neg (by simp [hcnt]), hlk]
  by_cases h12 : ws.length = 12
  · simp only [h12]
    norm_num
    cases t
    · have hspec : specChecksum SeedType.bip39 12
          (bitsToBytes (B.take (B.length - 4))) =
          (sha256 (bitsToBytes (B.take (B.length - 4)))).headD 0 >>> 4 := by
        simp [specChecksum]
      have hv : calc_checksum_128 (bitsToBytes (B.take (B.length - 4))) =
          (sha256 (bitsToBytes (B.take (B.length - 4)))).headD 0 >>> 4 := by
        rw [calc_checksum_128]
        exact shift4_of_lt _ (sha256_headD_lt _)
      simp only [hspec, hv]
      try exact ite_ne_flip _ _ _ _
    · have hspec : specChecksum SeedType.mobile 12
          (bitsToBytes (B.take (B.length - 4))) = 0 := rfl
      simp only [hspec]
      try exact ite_ne_flip _ _ _ _
  · have hbeq : (ws.length == 12) = false := by simp [h12]
    have h24 : ws.length = 24 := by
      cases t
      · simp only [wordCountOk, Bool.or_eq_true, beq_iff_eq] at hcnt
        rcases hcnt with h | h
        · exact absurd h h12
        · exact h
      · simp only [wordCountOk, beq_iff_eq] at hcnt
        exact absurd hcnt h12
    have ht : t = SeedType.bip39 := by
      cases t
      · rfl
      · simp only [wordCountOk, beq_iff_eq] at hcnt
        exact absurd hcnt h12
    subst ht
    simp only [hbeq, Bool.false_eq_true, if_false, if_neg h12]
    have hspec : specChecksum SeedType.bip39 ws.length
        (bitsToBytes (B.take (B.length - ws.length / 3))) =
        (sha256 (bitsToBytes (B.take (B.length - ws.length / 3)))).headD 0 := by
      simp [specChecksum, h12]
    have hv : calc_checksum_256 (bitsToBytes (B.take (B.length - ws.length / 3))) =
        (sha256 (bitsToBytes (B.take (B.length - ws.length / 3)))).headD 0 := rfl
    simp only [hspec, hv]
    try exact ite_ne_flip _ _ _ _

/-- The bit string the standard 12-word vector's words resolve to: the
128 entropy bits followed by the 4-bit checksum 0101. -/
def ritualBits : List Bool :=
  bytesToBits ritualEntropyHalf ++ [false, true, false, true]

/-- C4 (witness): the checksum characterization evaluated on the
standard 12-word known-answer phrase. -/
theorem claim_C4_checksum_witness :
    mnemonic_to_entropy ritualWords SeedType.bip39 =
      Except.ok (ritualEntropyHalf ++ ritualEntropyHalf) := by
  have h := claim_C4_checksum ritualWords SeedType.bip39 ritualBits (by decide) (by decide)
  rw [h]
  decide

/-- C5: the known-answer vectors: the mobile 12-word phrase decodes to
exactly the base58 decoding of its recorded entropy string, and the
standard 12-word phrase decodes to exactly the base58 decoding of its
recorded entropy string. -/
theorem claim_C5_vectors :
    mnemonic_to_entropy catchWords SeedType.mobile =
      Except.ok (catchEntropyHalf ++ catchEntropyHalf) ∧
    bs58_decode ("3RrA1FDa6mdw5JwKbUxEbZbMcJgSyWjhNwxsbX5pSos8") =
      some (catchEntropyHalf ++ catchEntropyHalf) ∧
    mnemonic_to_entropy ritualWords SeedType.bip39 =
      Except.ok (ritualEntropyHalf ++ ritualEntropyHalf) ∧
    bs58_decode ("DZESLNVfmfzdkwAPEjyUXQ8cBtLDCHX13wXMA6pyP7uP") =
      some (ritualEntropyHalf ++ ritualEntropyHalf) := by
  refine ⟨by decide, by decide, by decide, by decide⟩

/-- C6: abbreviated words: truncating every word of a phrase of word-list
words to its first 4 characters leaves mnemonic_to_entropy's result
unchanged (in particular the same entropy on valid phrases); and a word
list of accepted count containing an unresolvable word fails with an
UnknownWord error naming an unresolvable word. -/
theorem claim_C6_truncation :
    (∀ (ws : List (List Char)) (t : SeedType),
      (∀ w ∈ ws, w ∈ wordsEnglishChars) →
      mnemonic_to_entropy (ws.map (fun w => w.take 4)) t = mnemonic_to_entropy ws t) ∧
    (∀ (ws : List (List Char)) (t : SeedType) (w : List Char),
      wordCountOk ws.length t = true → w ∈ ws → find_english_word w = none →
      ∃ u, find_english_word u = none ∧
        mnemonic_to_entropy ws t = Except.error (WError.unknownWord u)) := by
  constructor
  · intro ws t h
    have hlen : (ws.map (fun w => w.take 4)).length = ws.length := List.length_map _ _
    simp only [mnemonic_to_entropy, hlen, lookupWords_map_take4 ws h]
  · intro ws t w hcnt hw hnone
    obtain ⟨u, hu, hlu⟩ := lookupWords_error_of_unknown ws ⟨w, hw, hnone⟩
    refine ⟨u, hu, ?_⟩
    rw [mnemonic_to_entropy, if_neg (by simp [hcnt]), hlu]

/-- C6 (witness): the truncation equality evaluated on the mobile
known-answer phrase, and the UnknownWord failure on a 12-word list whose
first word is unresolvable. -/
theorem claim_C6_truncation_witness :
    mnemonic_to_entropy (catchWords.map (fun w => w.take 4)) SeedType.mobile =
      mnemonic_to_entropy catchWords SeedType.mobile ∧
    ∃ u, find_english_word u = none ∧
      mnemonic_to_entropy (List.replicate 12 (("zzzz").data)) SeedType.mobile =
        Except.error (WError.unknownWord u) := by
  constructor
  · exact claim_C6_truncation.1 catchWords SeedType.mobile (by decide)
  · exact claim_C6_truncation.2 (List.replicate 12 (("zzzz").data)) SeedType.mobile
      (("zzzz").data) (by decide) (by decide) (by decide)

/-- C10 (counterexample): decoding is not literally invariant under
ASCII case changes: an unresolvable word is echoed verbatim inside the
UnknownWord error, so changing its case changes the returned error
value. -/
theorem claim_C10_counterexample :
    toAsciiLowercase (("ZZZZ").data) = ("zzzz").data ∧
    mnemonic_to_entropy (List.replicate 12 (("ZZZZ").data)) SeedType.mobile ≠
      mnemonic_to_entropy (List.replicate 12 (("zzzz").data)) SeedType.mobile := by
  refine ⟨by decide, by decide⟩

/-- C10 (amended): word resolution is ASCII-case-insensitive - a word's
lookup index only depends on its lowercase form - and whenever every
word resolves, changing any words' letters' ASCII case leaves the result
of mnemonic_to_entropy unchanged; only the word echoed inside an
UnknownWord error keeps the caller's case. -/
theorem claim_C10_case_insensitive (ws ws' : List (List Char)) (t : SeedType)
    (hlen : ws.length = ws'.length)
    (hlow : ∀ p ∈ ws.zip ws', toAsciiLowercase p.1 = toAsciiLowercase p.2)
    (hres : ∀ w ∈ ws, find_english_word w ≠ none) :
    mnemonic_to_entropy ws t = mnemonic_to_entropy ws' t := by
  simp only [mnemonic_to_entropy, hlen, lookupWords_congr_lower ws ws' hlen hlow hres]

/-- C10 (witness): the mobile known-answer phrase decoded in upper case
equals its lower-case decoding. -/
theorem claim_C10_case_witness :
    mnemonic_to_entropy
        [("CATCH").data, ("POET").data, ("Clog").data, ("Intact").data, ("SCARE").data,
         ("jacket").data, ("THROW").data, ("PALM").data, ("illegal").data, ("BUYER").data,
         ("Allow").data, ("FIGURE").data] SeedType.mobile =
      mnemonic_to_entropy catchWords SeedType.mobile := by
  exact claim_C10_case_insensitive _ catchWords SeedType.mobile (by decide) (by decide)
    (by decide)

/-- Concrete encrypted sharded wallet used to evaluate with_key_share. -/
def sampleShardedWallet : ShardedWallet :=
  ShardedWallet.encrypted (List.replicate 33 1) (List.replicate 12 2) (List.replicate 8 3)
    250000 (List.replicate 16 4) 5 3 (List.replicate 33 0) [9, 9, 9]

/-- C7: with_key_share evaluated at the code's actual behaviour: on a
Decrypted value it fails with the state-mismatch error; on an Encrypted
value a 33-byte share replaces the placeholder share; but a malformed
(non-33-byte) share makes copy_from_slice panic instead of returning an
error, contradicting the never-panic propagation policy. -/
theorem claim_C7_with_key_share :
    with_key_share (ShardedWallet.decrypted ⟨[], []⟩ 250000 5 3) (List.replicate 33 7) =
      POutcome.err WError.stateMismatch ∧
    with_key_share sampleShardedWallet (List.replicate 33 7) =
      POutcome.ok (ShardedWallet.encrypted (List.replicate 33 1) (List.replicate 12 2)
        (List.replicate 8 3) 250000 (List.replicate 16 4) 5 3 (List.replicate 33 7)
        [9, 9, 9]) ∧
    with_key_share sampleShardedWallet (List.replicate 32 7) = POutcome.panicked := by
  refine ⟨by decide, by decide, by decide⟩

theorem readExact_here {a : List Nat} (b : List Nat) {n : Nat} (h : a.length = n) :
    readExact n (a ++ b) = Except.ok (a, b) := by
  rw [readExact, if_pos (by rw [List.length_append]; omega), List.take_left' h,
    List.drop_left' h]

/-- C8: sharded wallet serialization: write lays the fields out as share
count, threshold, 33-byte key share, public key, 12-byte IV, 8-byte
salt, little-endian u32 iteration count, 16-byte tag, then the
ciphertext as the trailing bytes; and read of the written bytes restores
the wallet exactly (so count, threshold and share are preserved). -/
theorem claim_C8_serialization (pk iv salt tag share enc : List Nat)
    (iterations count threshold : Nat)
    (hpk : pk.length = 33) (hiv : iv.length = 12) (hsalt : salt.length = 8)
    (htag : tag.length = 16) (hshare : share.length = 33)
    (hit : iterations < 4294967296) (h1 : 1 ≤ threshold) (htc : threshold ≤ count) :
    shardedWrite (ShardedWallet.encrypted pk iv salt iterations tag count threshold
        share enc) =
      Except.ok ([count] ++ [threshold] ++ share ++ pk ++ iv ++ salt ++
        u32LEBytes iterations ++ tag ++ enc) ∧
    shardedRead ([count] ++ [threshold] ++ share ++ pk ++ iv ++ salt ++
        u32LEBytes iterations ++ tag ++ enc) =
      Except.ok (ShardedWallet.encrypted pk iv salt iterations tag count threshold
        share enc) := by
  constructor
  · rfl
  · have h5 : readU32LE (u32LEBytes iterations ++ (tag ++ enc)) =
        Except.ok (iterations, tag ++ enc) := by
      simp only [u32LEBytes, List.cons_append, List.nil_append, readU32LE]
      rw [show iterations % 256 + 256 * (iterations / 256 % 256) +
        65536 * (iterations / 65536 % 256) +
        16777216 * (iterations / 16777216 % 256) = iterations from by omega]
    have hr : shardedRead ([count] ++ [threshold] ++ share ++ pk ++ iv ++ salt ++
        u32LEBytes iterations ++ tag ++ enc) =
        shardedRead (count :: threshold :: (share ++ (pk ++ (iv ++ (salt ++
          (u32LEBytes iterations ++ (tag ++ enc))))))) := by
      simp [List.append_assoc]
    rw [hr, shardedRead]
    simp only [readU8, readExact_here _ hshare,
      show readExact PUBLIC_KEY_LEN (pk ++ (iv ++ (salt ++ (u32LEBytes iterations ++
        (tag ++ enc))))) = Except.ok (pk, iv ++ (salt ++ (u32LEBytes iterations ++
        (tag ++ enc)))) from readExact_here _ hpk,
      readExact_here _ hiv, readExact_here _ hsalt, h5, readExact_here _ htag]

/-- C8 (witness): a concrete sharded wallet round-trips through write
then read. -/
theorem claim_C8_serialization_witness :
    shardedWrite sampleShardedWallet =
      Except.ok ([5] ++ [3] ++ List.replicate 33 0 ++ List.replicate 33 1 ++
        List.replicate 12 2 ++ List.replicate 8 3 ++ u32LEBytes 250000 ++
        List.replicate 16 4 ++ [9, 9, 9]) ∧
    shardedRead ([5] ++ [3] ++ List.replicate 33 0 ++ List.replicate 33 1 ++
        List.replicate 12 2 ++ List.replicate 8 3 ++ u32LEBytes 250000 ++
        List.replicate 16 4 ++ [9, 9, 9]) = Except.ok sampleShardedWallet := by
  exact claim_C8_serialization (List.replicate 33 1) (List.replicate 12 2)
    (List.replicate 8 3) (List.replicate 16 4) (List.replicate 33 0) [9, 9, 9]
    250000 5 3 (by decide) (by decide) (by decide) (by decide) (by decide)
    (by decide) (by decide) (by decide)

/-- C9: wallet state machine, both variants: encrypt on an Encrypted
value and decrypt on a Decrypted value fail with the state-mismatch
error before any cryptographic work (for every collaborator and input);
successful encrypt always yields an Encrypted value and successful
decrypt a Decrypted value.  The operations are pure functions of their
inputs by construction. -/
theorem claim_C9_state_machine (c : CryptoPrims) (password : AESKey) (salt : Salt)
    (bw : BasicWallet) (sw : ShardedWallet) :
    (bw.isEncrypted = true → basicEncrypt c bw password salt =
      Except.error WError.stateMismatch) ∧
    (bw.isEncrypted = false → basicDecrypt c bw password =
      Except.error WError.stateMismatch) ∧
    (∀ w', basicEncrypt c bw password salt = Except.ok w' → w'.isEncrypted = true) ∧
    (∀ w', basicDecrypt c bw password = Except.ok w' → w'.isEncrypted = false) ∧
    (sw.isEncrypted = true → shardedEncrypt c sw password salt =
      Except.error WError.stateMismatch) ∧
    (sw.isEncrypted = false → shardedDecrypt c sw password =
      Except.error WError.stateMismatch) ∧
    (∀ w', shardedEncrypt c sw password salt = Except.ok w' → w'.isEncrypted = true) ∧
    (∀ w', shardedDecrypt c sw password = Except.ok w' → w'.isEncrypted = false) := by
  refine ⟨?_, ?_, ?_, ?_, ?_, ?_, ?_, ?_⟩
  · intro h
    cases bw with
    | decrypted kp it => simp [BasicWallet.isEncrypted] at h
    | encrypted pk iv s it tg e => rfl
  · intro h
    cases bw with
    | decrypted kp it => rfl
    | encrypted pk iv s it tg e => simp [BasicWallet.isEncrypted] at h
  · intro w' h
    cases bw with
    | decrypted kp it =>
      rw [basicEncrypt] at h
      match he : c.encrypt_keypair kp password with
      | .error e => rw [he] at h; exact absurd h (by simp)
      | .ok (iv, pb, enc, tg) =>
        rw [he] at h
        simp only [Except.ok.injEq] at h
        rw [← h]
        rfl
    | encrypted pk iv s it tg e =>
      rw [basicEncrypt] at h
      exact absurd h (by simp)
  · intro w' h
    cases bw with
    | decrypted kp it =>
      rw [basicDecrypt] at h
      exact absurd h (by simp)
    | encrypted pk iv s it tg e =>
      rw [basicDecrypt] at h
      match he : c.decrypt_keypair e password pk iv tg with
      | .error er => rw [he] at h; exact absurd h (by simp)
      | .ok kp =>
        rw [he] at h
        simp only [Except.ok.injEq] at h
        rw [← h]
        rfl
  · intro h
    cases sw with
    | decrypted kp it kc rt => simp [ShardedWallet.isEncrypted] at h
    | encrypted pk iv s it tg kc rt ks e => rfl
  · intro h
    cases sw with
    | decrypted kp it kc rt => rfl
    | encrypted pk iv s it tg kc rt ks e => simp [ShardedWallet.isEncrypted] at h
  · intro w' h
    cases sw with
    | decrypted kp it kc rt =>
      rw [shardedEncrypt] at h
      match he : c.encrypt_keypair kp password with
      | .error e => rw [he] at h; exact absurd h (by simp)
      | .ok (iv, pb, enc, tg) =>
        rw [he] at h
        simp only [Except.ok.injEq] at h
        rw [← h]
        rfl
    | encrypted pk iv s it tg kc rt ks e =>
      rw [shardedEncrypt] at h
      exact absurd h (by simp)
  · intro w' h
    cases sw with
    | decrypted kp it kc rt =>
      rw [shardedDecrypt] at h
      exact absurd h (by simp)
    | encrypted pk iv s it tg kc rt ks e =>
      rw [shardedDecrypt] at h
      match he : c.decrypt_keypair e password pk iv tg with
      | .error er => rw [he] at h; exact absurd h (by simp)
      | .ok kp =>
        rw [he] at h
        simp only [Except.ok.injEq] at h
        rw [← h]
        rfl

/-- A trivial collaborator instance used only to evaluate the state
machine at concrete inputs. -/
def trivialCrypto : CryptoPrims where
  encrypt_keypair := fun _ _ => Except.ok ([], [], [], [])
  decrypt_keypair := fun _ _ _ _ _ => Except.ok ⟨[], []⟩

/-- C9 (witness): the state machine evaluated at concrete wallets with a
trivial collaborator. -/
theorem claim_C9_state_machine_witness :
    basicEncrypt trivialCrypto (BasicWallet.encrypted [] [] [] 0 [] []) [] [] =
      Except.error WError.stateMismatch ∧
    basicDecrypt trivialCrypto (BasicWallet.decrypted ⟨[], []⟩ 0) [] =
      Except.error WError.stateMismatch ∧
    shardedEncrypt trivialCrypto
        (ShardedWallet.encrypted [] [] [] 0 [] 5 3 (List.replicate 33 0) []) [] [] =
      Except.error WError.stateMismatch ∧
    shardedDecrypt trivialCrypto (ShardedWallet.decrypted ⟨[], []⟩ 0 5 3) [] =
      Except.error WError.stateMismatch := by
  refine ⟨?_, ?_, ?_, ?_⟩
  · exact (claim_C9_state_machine trivialCrypto [] []
      (BasicWallet.encrypted [] [] [] 0 [] [])
      (ShardedWallet.decrypted ⟨[], []⟩ 0 5 3)).1 (by decide)
  · exact (claim_C9_state_machine trivialCrypto [] []
      (BasicWallet.decrypted ⟨[], []⟩ 0)
      (ShardedWallet.decrypted ⟨[], []⟩ 0 5 3)).2.1 (by decide)
  · exact (claim_C9_state_machine trivialCrypto [] []
      (BasicWallet.decrypted ⟨[], []⟩ 0)
      (ShardedWallet.encrypted [] [] [] 0 [] 5 3 (List.replicate 33 0) [])).2.2.2.2.1
      (by decide)
  · exact (claim_C9_state_machine trivialCrypto [] []
      (BasicWallet.decrypted ⟨[], []⟩ 0)
      (ShardedWallet.decrypted ⟨[], []⟩ 0 5 3)).2.2.2.2.2.1 (by decide)

end HeliumWallet
